import Mathlib

/-!
Verification of the `extract_text` PDF/EPUB text-extraction pipeline
(`src/extract_text/`).  Python strings are modelled as `String`/`List Char`
(`len` counts code points, as in Python), machine integers as `Nat`/`Int`,
fallible code as `Option`, and the external collaborators (Tesseract, the
VLM HTTP endpoint, the cleaning models, the document reader) as explicit
oracle parameters giving the values they return.
-/

namespace ExtractText

/-! ### Character-level helpers (Python `str` operations) -/

/-- ASCII lowercasing, as applied by `str.lower()` / `re.IGNORECASE` on the
ASCII letters that occur in the patterns of this code base. -/
def toLowerAscii (c : Char) : Char :=
  if 'A' ≤ c ∧ c ≤ 'Z' then Char.ofNat (c.toNat + 32) else c

/-- The whitespace class of Python `str.strip()` and of the regex `\s`
(ASCII whitespace, the C1 separators, NEL, and the Unicode space characters). -/
def isPyWhitespace (c : Char) : Bool :=
  c = ' ' || c = '\t' || c = '\n' || c = '\r' ||
  c.toNat = 0xb || c.toNat = 0xc ||
  (0x1c ≤ c.toNat && c.toNat ≤ 0x1f) ||
  c.toNat = 0x85 || c.toNat = 0xa0 || c.toNat = 0x1680 ||
  (0x2000 ≤ c.toNat && c.toNat ≤ 0x200a) ||
  c.toNat = 0x2028 || c.toNat = 0x2029 ||
  c.toNat = 0x202f || c.toNat = 0x205f || c.toNat = 0x3000

/-- Python `str.strip()` on a list of characters. -/
def stripChars (l : List Char) : List Char :=
  ((l.dropWhile isPyWhitespace).reverse.dropWhile isPyWhitespace).reverse

/-- Python `str.strip()`. -/
def pyStrip (s : String) : String :=
  ⟨stripChars s.data⟩

/-- Whether `pat` occurs as a contiguous substring of `l`
(the semantics of Python `pat in l` / `re.search` on a literal pattern). -/
def containsSub (pat : List Char) : List Char → Bool
  | [] => pat = []
  | c :: rest => pat.isPrefixOf (c :: rest) || containsSub pat rest

/-- Drop through the first occurrence of `pat` in `l`, returning the suffix
that follows it (`none` when `pat` does not occur). -/
def dropThroughOcc (pat : List Char) : List Char → Option (List Char)
  | [] => if pat = [] then some [] else none
  | c :: rest =>
    if pat.isPrefixOf (c :: rest) then some ((c :: rest).drop pat.length)
    else dropThroughOcc pat rest

/-- Whether the literal segments `segs` occur in `l` in order (the semantics
of a regex `s₁.*?s₂.*?…` applied to newline-free `l`). -/
def containsInOrder : List (List Char) → List Char → Bool
  | [], _ => true
  | s :: rest, l =>
    match dropThroughOcc s l with
    | some suffixAfter => containsInOrder rest suffixAfter
    | none => false

/-! ### `clean.py`: sentinels and the quality gate `is_garbage` -/

/-- `smart_clean` returns this constant when the text cannot be fixed and the
page must be re-OCRed (`clean.py`, `TEXT_ERROR`). -/
def TEXT_ERROR : String := "text_error"

/-- The cleaning model returns this value when the original text is already
good (`clean.py`, `TEXT_OK`). -/
def TEXT_OK : String := "TRUE"

/-- Rule 1 of `is_garbage`: the regex search `(.{4,50})\1{4,}` succeeds on
`l` with the capture placed at `i` and of length `L`.  `.` does not match a
newline, so the captured unit is newline-free; the backreferences demand four
further contiguous copies of the unit. -/
def repeatedAt (l : List Char) (i L : Nat) : Bool :=
  let u := (l.drop i).take L
  decide (4 ≤ L) && decide (L ≤ 50) && decide (i + 5 * L ≤ l.length) &&
    !(u.contains '\n') &&
    ((l.drop i).take (5 * L) == List.flatten (List.replicate 5 u))

/-- Rule 1 of `is_garbage`: `re.finditer(r'(.{4,50})\1{4,}', text)` finds a
match somewhere in the text. -/
def hasRepetition (l : List Char) : Bool :=
  (List.range l.length).any fun i => (List.range 51).any fun L => repeatedAt l i L

/-- The character class of rule 2 of `is_garbage`:
`[一-鿿　-〿a-zA-Z0-9，。！？、；：“”‘’（）\s]`. -/
def isCjkClass (c : Char) : Bool :=
  (0x4e00 ≤ c.toNat && c.toNat ≤ 0x9fff) ||
  (0x3000 ≤ c.toNat && c.toNat ≤ 0x303f) ||
  ('a' ≤ c && c ≤ 'z') || ('A' ≤ c && c ≤ 'Z') || ('0' ≤ c && c ≤ '9') ||
  c ∈ ['，', '。', '！', '？', '、', '；', '：', '“', '”', '‘', '’', '（', '）'] ||
  isPyWhitespace c

/-- Number of characters of `l` in the CJK/Latin/digit/punctuation class. -/
def cjkCount (l : List Char) : Nat :=
  (l.filter isCjkClass).length

/-- Rule 2 of `is_garbage`: `len(text) > 50 and cjk_en / len(text) < 0.3`
(the float division is modelled exactly: `10 * cjk_en < 3 * len`). -/
def lowCjkRatio (l : List Char) : Bool :=
  decide (50 < l.length) && decide (10 * cjkCount l < 3 * l.length)

/-- Rule 3 of `is_garbage`: `text.split('\n')` yields more than 10 lines and
more than half of them strip to exactly one character. -/
def manySingleCharLines (l : List Char) : Bool :=
  let lines := l.splitOn '\n'
  let single := (lines.filter fun ln => (stripChars ln).length = 1).length
  decide (10 < lines.length) && decide (lines.length < 2 * single)

/-- Match of the pattern `//\s*end\.?` (IGNORECASE): `//`, then any run of
whitespace (which, unlike `.`, may cross newlines), then `end`; the optional
trailing dot does not affect matchability. -/
def hasSlashSlashEnd : List Char → Bool
  | [] => false
  | c :: rest =>
    (c = '/' && (match rest with
      | c2 :: r => c2 = '/' && ['e', 'n', 'd'].isPrefixOf (((r.dropWhile isPyWhitespace).take 3).map toLowerAscii)
      | [] => false)) ||
    hasSlashSlashEnd rest

/-- The gap patterns of `hallucination_patterns`: literal segments separated
by `.*?`.  A match contains no newline, so a pattern matches the text iff
some line contains its segments in order. -/
def hallucinationGapPatterns : List (List (List Char)) :=
  [ [['整', '个'], ['文', '档'], ['没', '有'], ['文', '字']],
    [['为', '了', '达', '到'], ['目', '的'], ['可', '以', '按', '照'], ['语', '法'], ['转', '换']],
    [['建', '议', '图', '片', '不', '包', '含'], ['相', '关', '文', '字']],
    [['用'], ['语', '法', '输', '出']],
    [['本', '文', '档'], ['内', '容']],
    [['系', '统'], ['生', '成'], ['图', '片']] ]

/-- The literal (gap-free) members of `hallucination_patterns`. -/
def hallucinationLiterals : List (List Char) :=
  [ ['输', '出', '源', '码', '和', '样', '式', '生', '成', '的', '图', '片', '内', '容'],
    ['上', '传', '图', '片', '后', '移', '除', '图', '片', '文', '字', '内', '容'] ]

/-- Rule 4 of `is_garbage`: the text matches one of the nine fixed
hallucination phrase patterns. -/
def matchesHallucination (l : List Char) : Bool :=
  ((l.splitOn '\n').any fun ln =>
    hallucinationGapPatterns.any fun segs => containsInOrder segs ln) ||
  (hallucinationLiterals.any fun pat => containsSub pat l) ||
  hasSlashSlashEnd l

/-- `is_garbage` (`clean.py`): detects obviously bad OCR/VLM output. -/
def is_garbage (s : String) : Bool :=
  let l := s.data
  decide (l.length < 10) ||
  hasRepetition l ||
  lowCjkRatio l ||
  manySingleCharLines l ||
  matchesHallucination l

/-! ### `ocr.py`: the VLM worker `ocr_vlm` and `process_ocr_page`

The HTTP call of one attempt is an oracle value: `VlmOut.ok s` is a reply
whose content, after `clean_markdown`, is `s`; `VlmOut.err msg` is a raised
exception whose `str(e).lower()` is `msg`.  The run is modelled without
cancellation (`shutdown_flag` never set). -/

/-- Outcome of one VLM HTTP attempt. -/
inductive VlmOut where
  | ok (s : String)
  | err (msg : List Char)
deriving DecidableEq

/-- The transient-error classification of `ocr_vlm`:
`any(k in err_str for k in ("429", "rate", "connection", "timeout", "500", "502", "503", "504"))`
on the lowercased exception text. -/
def transientErr (msg : List Char) : Bool :=
  [['4', '2', '9'], ['r', 'a', 't', 'e'],
   ['c', 'o', 'n', 'n', 'e', 'c', 't', 'i', 'o', 'n'],
   ['t', 'i', 'm', 'e', 'o', 'u', 't'],
   ['5', '0', '0'], ['5', '0', '2'], ['5', '0', '3'], ['5', '0', '4']].any
    fun k => containsSub k (msg.map toLowerAscii)

/-- Record of one attempt made by `ocr_vlm`: its oracle outcome, the backoff
sleep performed after it (`none` when no sleep), and whether
`cfg.next_model()` rotated the model pool after it. -/
structure VlmAttempt where
  out : VlmOut
  waitSecs : Option Nat
  rotated : Bool
deriving DecidableEq

/-- An attempt that did not produce usable text: a raised exception, or
content the quality gate rejects. -/
def vlmAttemptFailed (a : VlmAttempt) : Bool :=
  match a.out with
  | .ok s => is_garbage s
  | .err _ => true

/-- The retry loop of `ocr_vlm` (`for attempt in range(3)`), started at
attempt `k` with `fuel` iterations left.  Returns the string the call
returns together with the list of attempts made.  A garbage reply before the
last attempt rotates the model and retries with no wait; a transient
exception before the last attempt sleeps `(attempt + 1) * 3` seconds,
rotates, and retries; anything else ends the call, every non-success ending
in `""` (the outer `except` handler). -/
def vlmGo (outcomes : Nat → VlmOut) : Nat → Nat → String × List VlmAttempt
  | 0, _ => ("", [])
  | fuel + 1, k =>
    match outcomes k with
    | .ok s =>
      if is_garbage s then
        if k < 2 then
          let r := vlmGo outcomes fuel (k + 1)
          (r.1, ⟨.ok s, none, true⟩ :: r.2)
        else ("", [⟨.ok s, none, false⟩])
      else (s, [⟨.ok s, none, false⟩])
    | .err msg =>
      if k < 2 ∧ transientErr msg then
        let r := vlmGo outcomes fuel (k + 1)
        (r.1, ⟨.err msg, some ((k + 1) * 3), true⟩ :: r.2)
      else ("", [⟨.err msg, none, false⟩])

/-- `ocr_vlm` (`ocr.py`): up to three attempts starting at attempt 0. -/
def ocrVlm (outcomes : Nat → VlmOut) : String × List VlmAttempt :=
  vlmGo outcomes 3 0

/-- `process_ocr_page` (`ocr.py`) as a function of the results of its
collaborator calls: `ocrResult` is what `ocr_tesseract` would return and
`vlmResult` what `ocr_vlm` would return.  `text` is the page's embedded text
(already `.strip()`ed by the extractor).  Python's `if vlm_text:` is the
non-emptiness test. -/
def process_ocr_page (minOcrLen : Nat) (ocrResult vlmResult : String)
    (idx : Nat) (method : String) (text : String) : Nat × String :=
  if method = "ai" then (idx, vlmResult)
  else if method = "ocr" then (idx, ocrResult)
  else if method = "auto_ai" then
    (idx, if vlmResult ≠ "" then vlmResult else text)
  else
    if minOcrLen ≤ ocrResult.length then (idx, ocrResult)
    else (idx, if vlmResult ≠ "" then vlmResult else text)

/-! ### `utils.py`: `parse_pages`, and Python `int()` -/

/-- Value of a nonempty all-digit string, `none` otherwise. -/
def natDigits (l : List Char) : Option Nat :=
  if l ≠ [] ∧ l.all (fun c => '0' ≤ c && c ≤ '9') then
    some (l.foldl (fun a c => 10 * a + (c.toNat - '0'.toNat)) 0)
  else none

/-- Python `int(s)`: surrounding whitespace, an optional sign, and a
nonempty digit string; anything else raises `ValueError` (`none`). -/
def pyInt (l : List Char) : Option Int :=
  match stripChars l with
  | '+' :: rest => (natDigits rest).map Int.ofNat
  | '-' :: rest => (natDigits rest).map fun n => -(n : Int)
  | t => (natDigits t).map Int.ofNat

/-- One `part` of a page specification: a single 1-based page `"n"`, or a
range `"a-b"` split at the first `-` (`part.split("-", 1)`), contributing
`range(int(a) - 1, int(b))`.  `none` models a raised `ValueError`. -/
def parsePart (part : List Char) : Option (Finset Int) :=
  let p := stripChars part
  if p.contains '-' then
    let a := p.takeWhile (· ≠ '-')
    let b := (p.dropWhile (· ≠ '-')).drop 1
    match pyInt a, pyInt b with
    | some av, some bv => some (Finset.Ico (av - 1) bv)
    | _, _ => none
  else
    (pyInt p).map fun v => {v - 1}

/-- `parse_pages(spec, total)` (`utils.py`): `"all"` yields every 0-based
index; otherwise the union over the comma-separated parts.  `none` models a
raised `ValueError`. -/
def parsePages (spec : List Char) (total : Nat) : Option (Finset Int) :=
  if (stripChars spec).map toLowerAscii = ['a', 'l', 'l'] then
    some (Finset.Ico (0 : Int) total)
  else
    (spec.splitOn ',').foldlM (fun acc part => (parsePart part).map (acc ∪ ·)) ∅

/-! ### `extractors.py`: the per-page method assignment -/

/-- One entry of a file's `overrides` list: a page specification and the
method it forces. -/
structure Override where
  pages : List Char
  method : String

/-- The override loop of `extract_pdf_method`: starting from
`{i: default_method for i in range(total)}`, each override in listed order
sets `page_methods[p] = m` for every `p` in its parsed page set.  `none`
models `parse_pages` raising on some override. -/
def assignMethods (defaultMethod : String) (ovs : List Override) (total : Nat) :
    Option (Int → String) :=
  ovs.foldlM
    (fun f ov => (parsePages ov.pages total).map
      fun ps i => if i ∈ ps then ov.method else f i)
    (fun _ => defaultMethod)

/-! ### `progress.py`: the progress snapshot round trip

`json.dumps`/`json.loads` on the `{"completed": {...}}` wrapper are the
external serialization; the modelled state is the key-value structure they
preserve: `save_progress` stringifies each page index (`{str(k): v ...}`)
and `load_progress` parses it back (`{int(k): v ...}`). -/

/-- Python `str(n)` for a natural number. -/
def natToChars (n : Nat) : List Char :=
  if n = 0 then ['0']
  else ((Nat.digits 10 n).map Nat.digitChar).reverse

/-- `save_progress` (`progress.py`): the `"completed"` mapping written to
disk, with stringified keys. -/
def save_progress (results : List (Nat × String)) : List (List Char × String) :=
  results.map fun kv => (natToChars kv.1, kv.2)

/-- `load_progress` (`progress.py`): the mapping read back, with keys parsed
by `int(k)`; any failure makes the whole load return `{}` (here `none`,
collapsed by the caller). -/
def load_progress : List (List Char × String) → Option (List (Int × String))
  | [] => some []
  | kv :: rest =>
    (pyInt kv.1).bind fun n => (load_progress rest).map fun tail => (n, kv.2) :: tail

/-! ### `extractors.py`: the pipeline orchestrator

`_run_pipeline` runs OCR workers and cleaning workers concurrently; every
mutation of the shared result map and retry set is lock-protected and
per-page (recording a page, then cleaning that same page).  The completed
run is modelled as the per-task sequence of those mutations: for each task,
the OCR callback `_on_ocr_done` followed, when cleaning is on, by the
`_clean_worker` body for that page.  The network collaborators are an
oracle: `proc round idx method` is what `process_ocr_page` returns for the
page in that round, `clean round idx text` what `smart_clean` returns. -/

/-- The collaborator oracle of one document run. -/
structure Oracle where
  proc : Nat → Nat → String → String
  clean : Nat → Nat → String → String

/-- The result map: page index to extracted text, `none` = not yet
processed. -/
def ResultMap : Type := Nat → Option String

/-- Update of the result map (`results[idx] = text`). -/
def ResultMap.insert (m : ResultMap) (idx : Nat) (text : String) : ResultMap :=
  fun j => if j = idx then some text else m j

/-- Removal from the result map (`results.pop(idx, None)`). -/
def ResultMap.erase (m : ResultMap) (idx : Nat) : ResultMap :=
  fun j => if j = idx then none else m j

/-- `retry_pages.add(idx)` on the retry set (a Python `set`). -/
def retryAdd (retry : List Nat) (idx : Nat) : List Nat :=
  if idx ∈ retry then retry else idx :: retry

/-- The `_clean_worker` body after `smart_clean` returned `cleaned` for page
`idx`: `TEXT_ERROR` moves the page to the retry set and pops its result;
a value other than `TEXT_OK` overwrites the result; `TEXT_OK` keeps it. -/
def cleanWorkerStep (cleaned : String) (idx : Nat)
    (results : ResultMap) (retry : List Nat) : ResultMap × List Nat :=
  if cleaned = TEXT_ERROR then (results.erase idx, retryAdd retry idx)
  else if cleaned ≠ TEXT_OK then (results.insert idx cleaned, retry)
  else (results, retry)

/-- State of one pipeline run: the shared result map, the retry set being
collected, and the trace of `process_ocr_page` submissions
`(round, page index, method)`. -/
structure PipeState where
  res : ResultMap
  retry : List Nat
  log : List (Nat × Nat × String)

/-- Net effect of one task `(idx, method)`: `process_ocr_page` runs, then
`_on_ocr_done` drops an empty result (the page stays absent) or records it;
a recorded page is then cleaned when cleaning is enabled. -/
def runTask (o : Oracle) (doClean : Bool) (round : Nat)
    (st : PipeState) (t : Nat × String) : PipeState :=
  let text := o.proc round t.1 t.2
  let st := { st with log := st.log ++ [(round, t.1, t.2)] }
  if text = "" then st
  else
    let res1 := st.res.insert t.1 text
    if doClean then
      let rr := cleanWorkerStep (o.clean round t.1 text) t.1 res1 st.retry
      { st with res := rr.1, retry := rr.2 }
    else { st with res := res1 }

/-- `_run_pipeline`: the net effect of all tasks of one round. -/
def runPipeline (o : Oracle) (doClean : Bool) (round : Nat)
    (tasks : List (Nat × String)) (st : PipeState) : PipeState :=
  tasks.foldl (runTask o doClean round) st

/-- Inputs of the classification loop of `extract_pdf_method`: the page
count, the per-page method (after overrides), the embedded text of each page
(`page.get_text().strip()`), the large-image test result, the
`min_text_len` threshold, and the loaded progress snapshot. -/
structure ClassifyInput where
  total : Nat
  pageMethod : Nat → String
  embedded : Nat → String
  hasImages : Nat → Bool
  minTextLen : Nat
  initial : Nat → Option String

/-- The OCR test of the classification loop:
`method in ("ai", "ocr") or (method in ("auto", "auto_ai") and (len(text) < cfg.min_text_len or has_images))`. -/
def needsOcr (ci : ClassifyInput) (i : Nat) : Bool :=
  let m := ci.pageMethod i
  (m = "ai" || m = "ocr") ||
    ((m = "auto" || m = "auto_ai") &&
      (decide ((ci.embedded i).length < ci.minTextLen) || ci.hasImages i))

/-- Result map right after the classification loop: loaded progress entries
are kept (`if i in results: continue`), pages that do not need OCR receive
their embedded text, pages that do stay absent. -/
def classifyRes (ci : ClassifyInput) : ResultMap :=
  fun i =>
    if (ci.initial i).isSome then ci.initial i
    else if i < ci.total ∧ needsOcr ci i = false then some (ci.embedded i)
    else none

/-- `first_tasks` of `extract_pdf_method`: the pages, in index order, that
are not in the loaded progress and need OCR, with their assigned method. -/
def classifyTasks (ci : ClassifyInput) : List (Nat × String) :=
  ((List.range ci.total).filter
      fun i => (ci.initial i).isNone && needsOcr ci i).map
    fun i => (i, ci.pageMethod i)

/-- One retry round `r` of `extract_pdf_method`: nothing when the retry set
is empty (`break`), otherwise a pipeline over the sorted retry pages, each
forced to method `"ai"` with a freshly rasterized image, collecting a new
retry set. -/
def retryRound (o : Oracle) (doClean : Bool) (st : PipeState) (r : Nat) : PipeState :=
  if st.retry = [] then st
  else
    runPipeline o doClean r
      (((st.retry.insertionSort (· ≤ ·)).map fun i => (i, "ai")))
      { st with retry := [] }

/-- `results.setdefault(idx, "")` over the pages still in the retry set
after the final round. -/
def setdefaultEmpty (res : ResultMap) (retry : List Nat) : ResultMap :=
  retry.foldl (fun m idx => if (m idx).isSome then m else m.insert idx "") res

/-- `extract_pdf_method` (`extractors.py`) on a run that is never
cancelled: classification, the round-0 pipeline, up to
`max_retry_rounds = 3` retry rounds, then the empty-string backfill of the
pages that still failed. -/
def extractPdf (o : Oracle) (ci : ClassifyInput) (doClean : Bool) : PipeState :=
  let st0 : PipeState := ⟨classifyRes ci, [], []⟩
  let st1 := runPipeline o doClean 0 (classifyTasks ci) st0
  let st2 := [1, 2, 3].foldl (retryRound o doClean) st1
  { st2 with res := setdefaultEmpty st2.res st2.retry }

/-! ### `extractors.py`: output assembly (`process_file`, PDF, unsplit) -/

/-- Lookup in an association-list result snapshot (a Python dict). -/
def lookupKey (results : List (Nat × String)) (i : Nat) : Option String :=
  (results.find? fun kv => kv.1 = i).map Prod.snd

/-- The unsplit PDF output of `process_file`:
`"\n\n---\n\n".join(results[i] for i in sorted(results) if results.get(i, "").strip())`. -/
def assembleContent (results : List (Nat × String)) : String :=
  let keys := (results.map Prod.fst).insertionSort (· ≤ ·)
  let parts := keys.filterMap fun i =>
    match lookupKey results i with
    | some t => if pyStrip t ≠ "" then some t else none
    | none => none
  String.intercalate "\n\n---\n\n" parts

/-! ## Claim theorems -/

/-- C2, counterexample.  With the default `min_ocr_len = 20`, a page whose
local OCR read the non-empty `"abc"` (below the threshold), whose VLM call
returned empty, and whose embedded text is empty, returns the empty string
from `process_ocr_page` under method `auto` — even though one of the three
candidates is non-empty.  This falsifies the claim's final clause. -/
theorem c2_counterexample :
    process_ocr_page 20 "abc" "" 7 "auto" "" = (7, "") ∧ "abc" ≠ "" := by
  constructor
  · rfl
  · decide

/-- C2, amended.  Under method `auto`, `process_ocr_page` returns the local
OCR text when its length reaches `min_ocr_len`, otherwise the VLM text when
that is non-empty, otherwise the embedded text; consequently (for a positive
threshold) the result is non-empty whenever the VLM text or the embedded
text is non-empty — but a non-empty below-threshold OCR text alone does not
prevent an empty result. -/
theorem c2_auto_flow (minOcrLen : Nat) (ocrResult vlmResult text : String) (idx : Nat) :
    (process_ocr_page minOcrLen ocrResult vlmResult idx "auto" text).1 = idx
    ∧ (minOcrLen ≤ ocrResult.length →
        (process_ocr_page minOcrLen ocrResult vlmResult idx "auto" text).2 = ocrResult)
    ∧ (ocrResult.length < minOcrLen → vlmResult ≠ "" →
        (process_ocr_page minOcrLen ocrResult vlmResult idx "auto" text).2 = vlmResult)
    ∧ (ocrResult.length < minOcrLen → vlmResult = "" →
        (process_ocr_page minOcrLen ocrResult vlmResult idx "auto" text).2 = text)
    ∧ (0 < minOcrLen → (vlmResult ≠ "" ∨ text ≠ "") →
        (process_ocr_page minOcrLen ocrResult vlmResult idx "auto" text).2 ≠ "") := by
  have h1 : ("auto" = "ai") = False := by simp
  have h2 : ("auto" = "ocr") = False := by simp
  have h3 : ("auto" = "auto_ai") = False := by simp
  simp only [process_ocr_page, h1, h2, h3, if_false]
  refine ⟨?_, ?_, ?_, ?_, ?_⟩
  · split <;> rfl
  · intro h
    rw [if_pos h]
  · intro h hv
    rw [if_neg (Nat.not_le.mpr h), if_pos hv]
  · intro h hv
    rw [if_neg (Nat.not_le.mpr h), if_neg (by simp [hv])]
  · intro hpos hcand
    by_cases hlen : minOcrLen ≤ ocrResult.length
    · rw [if_pos hlen]
      intro he
      have he2 : ocrResult = "" := he
      rw [he2] at hlen
      simp only [String.length] at hlen
      simp at hlen
      omega
    · rw [if_neg hlen]
      by_cases hv : vlmResult = ""
      · rw [if_neg (by simp [hv])]
        rcases hcand with h | h
        · exact absurd hv h
        · exact h
      · rw [if_pos hv]
        exact hv

/-- C2, witness for `c2_auto_flow` at `min_ocr_len = 20`, OCR text
`"short"`, VLM text `"vlm output"`, embedded text `"embedded"`. -/
theorem c2_auto_flow_witness :
    (process_ocr_page 20 "short" "vlm output" 3 "auto" "embedded").2 = "vlm output" := by
  exact (c2_auto_flow 20 "short" "vlm output" "embedded" 3).2.2.1 (by decide) (by decide)

/-- C5.  When `_clean_worker` receives the unfixable sentinel `TEXT_ERROR`
for a page, the page's index is added to the retry set and its result-map
entry is removed; and (for a page not already in the retry set, as holds for
every cleaned page, each being cleaned at most once per round) the step
preserves the invariant that every index in the retry set is absent from the
result map. -/
theorem c5_clean_error_retry (cleaned : String) (idx : Nat)
    (results : ResultMap) (retry : List Nat) :
    (cleaned = TEXT_ERROR →
      idx ∈ (cleanWorkerStep cleaned idx results retry).2
      ∧ (cleanWorkerStep cleaned idx results retry).1 idx = none)
    ∧ (idx ∉ retry → (∀ j ∈ retry, results j = none) →
        ∀ j ∈ (cleanWorkerStep cleaned idx results retry).2,
          (cleanWorkerStep cleaned idx results retry).1 j = none) := by
  constructor
  · intro he
    simp only [cleanWorkerStep, if_pos he]
    constructor
    · unfold retryAdd
      split
      · assumption
      · exact List.mem_cons_self idx retry
    · show ResultMap.erase results idx idx = none
      unfold ResultMap.erase
      rw [if_pos rfl]
  · intro hni hinv j hj
    by_cases he : cleaned = TEXT_ERROR
    · simp only [cleanWorkerStep, if_pos he] at hj ⊢
      show ResultMap.erase results idx j = none
      unfold ResultMap.erase
      by_cases hji : j = idx
      · rw [if_pos hji]
      · rw [if_neg hji]
        unfold retryAdd at hj
        split at hj
        · exact hinv j hj
        · rcases List.mem_cons.mp hj with h | h
          · exact absurd h hji
          · exact hinv j h
    · simp only [cleanWorkerStep, if_neg he] at hj ⊢
      by_cases hok : cleaned ≠ TEXT_OK
      · simp only [if_pos hok] at hj ⊢
        show ResultMap.insert results idx cleaned j = none
        unfold ResultMap.insert
        rw [if_neg (fun heq : j = idx => hni (heq ▸ hj))]
        exact hinv j hj
      · simp only [if_neg hok] at hj ⊢
        exact hinv j hj

/-- C5, witness: a page whose cleaning returned `TEXT_ERROR` lands in the
retry set and loses its result-map entry. -/
theorem c5_clean_error_retry_witness :
    3 ∈ (cleanWorkerStep TEXT_ERROR 3 (fun _ => some "t") []).2
    ∧ (cleanWorkerStep TEXT_ERROR 3 (fun _ => some "t") []).1 3 = none :=
  (c5_clean_error_retry TEXT_ERROR 3 (fun _ => some "t") []).1 rfl

/-! ### Helper lemmas on characters and stripping -/

/-- A nonempty run of ASCII digits. -/
def isDigitSeq (l : List Char) : Bool :=
  !l.isEmpty && l.all fun c => '0' ≤ c && c ≤ '9'

/-- A page-specification part the configuration documents: a single page
number, or a closed range `digits-digits`. -/
def goodPart (part : List Char) : Bool :=
  isDigitSeq part ||
  (part.contains '-' && isDigitSeq (part.takeWhile (· ≠ '-')) &&
    isDigitSeq ((part.dropWhile (· ≠ '-')).drop 1))

theorem char_eq_iff_toNat (a b : Char) : a = b ↔ a.toNat = b.toNat :=
  ⟨congrArg _, fun h => Char.ext (UInt32.ext h)⟩

theorem digit_not_ws (c : Char) (h48 : 48 ≤ c.toNat) (h57 : c.toNat ≤ 57) :
    isPyWhitespace c = false := by
  rw [Bool.eq_false_iff]
  intro habs
  simp only [isPyWhitespace, Bool.or_eq_true, Bool.and_eq_true, decide_eq_true_eq,
    char_eq_iff_toNat, show (' ').toNat = 32 from rfl, show ('\t').toNat = 9 from rfl,
    show ('\n').toNat = 10 from rfl, show ('\r').toNat = 13 from rfl] at habs
  omega

theorem digit_char_facts (c : Char) (h : ('0' ≤ c && c ≤ '9') = true) :
    isPyWhitespace c = false ∧ c ≠ '-' ∧ c ≠ '+' ∧ c ≠ ',' := by
  rw [Bool.and_eq_true, decide_eq_true_eq, decide_eq_true_eq] at h
  have h48 : 48 ≤ c.toNat := h.1
  have h57 : c.toNat ≤ 57 := h.2
  refine ⟨digit_not_ws c h48 h57, ?_, ?_, ?_⟩ <;>
    · intro he
      subst he
      revert h48 h57
      decide

theorem stripChars_eq_self (l : List Char) (h : ∀ c ∈ l, isPyWhitespace c = false) :
    stripChars l = l := by
  unfold stripChars
  have h1 : l.dropWhile isPyWhitespace = l := by
    rw [List.dropWhile_eq_self_iff]
    intro hl
    rw [h _ (List.get_mem l 0 hl)]
    decide
  rw [h1]
  have h2 : l.reverse.dropWhile isPyWhitespace = l.reverse := by
    rw [List.dropWhile_eq_self_iff]
    intro hl
    rw [h _ (List.mem_reverse.mp (List.get_mem l.reverse 0 hl))]
    decide
  rw [h2, List.reverse_reverse]

theorem dropWhile_hyphen_split (l : List Char) (hc : l.contains '-' = true) :
    ∃ b, l.dropWhile (· ≠ '-') = '-' :: b := by
  induction l with
  | nil => simp at hc
  | cons c rest ih =>
    by_cases hch : c = '-'
    · subst hch
      exact ⟨rest, by simp [List.dropWhile]⟩
    · have hrest : rest.contains '-' = true := by
        simp only [List.contains_cons, Bool.or_eq_true, beq_iff_eq] at hc
        rcases hc with h | h
        · exact absurd h.symm hch
        · exact h
      have hstep : (c :: rest).dropWhile (· ≠ '-') = rest.dropWhile (· ≠ '-') := by
        simp only [List.dropWhile_cons]
        rw [if_pos (by simp [hch])]
      rw [hstep]
      exact ih hrest

theorem isDigitSeq_all (l : List Char) (h : isDigitSeq l = true) :
    ∀ c ∈ l, ('0' ≤ c && c ≤ '9') = true := by
  rw [isDigitSeq, Bool.and_eq_true, List.all_eq_true] at h
  exact h.2

theorem isDigitSeq_ne_nil (l : List Char) (h : isDigitSeq l = true) : l ≠ [] := by
  rw [isDigitSeq, Bool.and_eq_true] at h
  intro hnil
  subst hnil
  simp at h

theorem natDigits_isSome (l : List Char) (h : isDigitSeq l = true) :
    (natDigits l).isSome := by
  unfold natDigits
  rw [if_pos ⟨isDigitSeq_ne_nil l h, List.all_eq_true.mpr fun c hc => isDigitSeq_all l h c hc⟩]
  rfl

theorem pyInt_digits_isSome (l : List Char) (h : isDigitSeq l = true) :
    (pyInt l).isSome := by
  have hall := isDigitSeq_all l h
  have hstrip : stripChars l = l :=
    stripChars_eq_self l fun c hc => (digit_char_facts c (hall c hc)).1
  unfold pyInt
  rw [hstrip]
  obtain ⟨c, rest, hl⟩ : ∃ c rest, l = c :: rest := by
    cases l with
    | nil => exact absurd rfl (isDigitSeq_ne_nil [] h)
    | cons c rest => exact ⟨c, rest, rfl⟩
  subst hl
  have hfacts := digit_char_facts c (hall c (List.mem_cons_self c rest))
  split
  · rename_i heq
    rw [List.cons.injEq] at heq
    exact absurd heq.1 hfacts.2.2.1
  · rename_i heq
    rw [List.cons.injEq] at heq
    exact absurd heq.1 hfacts.2.1
  · obtain ⟨v, hv⟩ := Option.isSome_iff_exists.mp (natDigits_isSome _ h)
    rw [hv]
    rfl

theorem contains_eq_false_of_digits (l : List Char) (h : isDigitSeq l = true) :
    l.contains '-' = false := by
  rw [Bool.eq_false_iff]
  intro hc
  have hm : '-' ∈ l := List.elem_iff.mp hc
  exact (digit_char_facts '-' (isDigitSeq_all l h '-' hm)).2.1 rfl

theorem parsePart_isSome (part : List Char) (h : goodPart part = true) :
    (parsePart part).isSome := by
  rw [goodPart, Bool.or_eq_true, Bool.and_eq_true, Bool.and_eq_true] at h
  unfold parsePart
  rcases h with hd | ⟨⟨hc, ha⟩, hb⟩
  · have hall := isDigitSeq_all part hd
    have hstrip : stripChars part = part :=
      stripChars_eq_self part fun c hc => (digit_char_facts c (hall c hc)).1
    dsimp only
    rw [hstrip, contains_eq_false_of_digits part hd]
    simp only [Bool.false_eq_true, if_false]
    obtain ⟨v, hv⟩ := Option.isSome_iff_exists.mp (pyInt_digits_isSome part hd)
    rw [hv]
    rfl
  · obtain ⟨b, hsplit⟩ := dropWhile_hyphen_split part hc
    have hbb : (part.dropWhile (· ≠ '-')).drop 1 = b := by
      rw [hsplit]
      rfl
    rw [hbb] at hb
    have hdecomp : part.takeWhile (· ≠ '-') ++ '-' :: b = part := by
      rw [← hsplit]
      exact List.takeWhile_append_dropWhile _ _
    have hmem : ∀ c ∈ part, isPyWhitespace c = false := by
      intro c hcm
      rw [← hdecomp] at hcm
      rcases List.mem_append.mp hcm with hm | hm
      · exact (digit_char_facts c (isDigitSeq_all _ ha c hm)).1
      · rcases List.mem_cons.mp hm with hm | hm
        · subst hm
          decide
        · exact (digit_char_facts c (isDigitSeq_all _ hb c hm)).1
    have hstrip : stripChars part = part := stripChars_eq_self part hmem
    dsimp only
    rw [hstrip, hc]
    simp only [if_true]
    rw [hsplit]
    simp only [List.drop_one, List.tail_cons]
    obtain ⟨av, hav⟩ := Option.isSome_iff_exists.mp (pyInt_digits_isSome _ ha)
    obtain ⟨bv, hbv⟩ := Option.isSome_iff_exists.mp (pyInt_digits_isSome _ hb)
    rw [hav, hbv]
    rfl

/-- C8, counterexample.  The configuration documentation's own example
`"1-5,9,20-"` uses an open-ended range, yet `parse_pages` raises
`ValueError` on `"20-"` (`int("")` on the empty right endpoint), modelled
here as `none`. -/
theorem c8_counterexample :
    parsePages "20-".data 100 = none ∧ parsePages "1-5,9,20-".data 100 = none := by
  constructor <;> rfl

/-- C8, amended.  `parse_pages` accepts, without raising, every page
specification made of comma-separated single 1-based pages and closed
ranges `a-b` (and the keyword `all`); open-ended ranges such as `"20-"` are
rejected with a `ValueError` rather than parsed as "through the last
page". -/
theorem c8_parse_pages_total (spec : List Char) (total : Nat)
    (h : ∀ part ∈ spec.splitOn ',', goodPart part = true) :
    (parsePages spec total).isSome := by
  unfold parsePages
  split
  · rfl
  · have hgen : ∀ (parts : List (List Char)) (acc : Finset Int),
        (∀ part ∈ parts, goodPart part = true) →
        (parts.foldlM (fun acc part => (parsePart part).map (acc ∪ ·)) acc).isSome := by
      intro parts
      induction parts with
      | nil => intro acc _; rfl
      | cons p ps ih =>
        intro acc hp
        rw [List.foldlM_cons]
        obtain ⟨ps1, hps1⟩ := Option.isSome_iff_exists.mp
          (parsePart_isSome p (hp p (List.mem_cons_self p ps)))
        rw [hps1]
        exact ih (acc ∪ ps1) fun part hm => hp part (List.mem_cons_of_mem p hm)
    exact hgen _ _ h

/-- C8, witness for `c8_parse_pages_total`: `"1-5,9"` parses to the 0-based
indices 0–4 and 8. -/
theorem c8_parse_pages_total_witness :
    (parsePages "1-5,9".data 30).isSome ∧
    parsePages "1-5,9".data 30 = some {0, 1, 2, 3, 4, 8} := by
  refine ⟨c8_parse_pages_total "1-5,9".data 30 (by decide), by decide⟩

/-! ### The progress round trip (C10) -/

theorem digitChar_facts (d : Nat) (h : d < 10) :
    ('0' ≤ Nat.digitChar d && Nat.digitChar d ≤ '9') = true ∧
    (Nat.digitChar d).toNat - '0'.toNat = d := by
  interval_cases d <;> exact ⟨by decide, by decide⟩

theorem natToChars_digitSeq (n : Nat) : isDigitSeq (natToChars n) = true := by
  unfold natToChars
  split
  · decide
  · rename_i hn
    rw [isDigitSeq, Bool.and_eq_true]
    constructor
    · have hne : Nat.digits 10 n ≠ [] := Nat.digits_ne_nil_iff_ne_zero.mpr hn
      simp [List.isEmpty_iff, hne]
    · rw [List.all_eq_true]
      intro c hc
      rw [List.mem_reverse, List.mem_map] at hc
      obtain ⟨d, hd, rfl⟩ := hc
      exact (digitChar_facts d (Nat.digits_lt_base (by norm_num) hd)).1

theorem natDigits_natToChars (n : Nat) : natDigits (natToChars n) = some n := by
  have hd := natToChars_digitSeq n
  unfold natDigits
  rw [if_pos ⟨isDigitSeq_ne_nil _ hd, List.all_eq_true.mpr (isDigitSeq_all _ hd)⟩]
  congr 1
  unfold natToChars
  split
  · rename_i h0
    rw [h0]
    decide
  · rename_i hn
    rw [List.foldl_reverse, List.foldr_map]
    have key : ∀ L : List Nat, (∀ d ∈ L, d < 10) →
        L.foldr (fun d y => 10 * y + ((Nat.digitChar d).toNat - '0'.toNat)) 0 =
          Nat.ofDigits 10 L := by
      intro L
      induction L with
      | nil => intro _; rfl
      | cons d L ih =>
        intro hall
        rw [List.foldr_cons, ih fun x hx => hall x (List.mem_cons_of_mem d hx),
          Nat.ofDigits_cons]
        have hv := (digitChar_facts d (hall d (List.mem_cons_self d L))).2
        rw [hv]
        omega
    rw [key _ fun d hd => Nat.digits_lt_base (by norm_num) hd, Nat.ofDigits_digits]

theorem pyInt_natToChars (n : Nat) : pyInt (natToChars n) = some (n : Int) := by
  have hd := natToChars_digitSeq n
  have hall := isDigitSeq_all _ hd
  have hstrip : stripChars (natToChars n) = natToChars n :=
    stripChars_eq_self _ fun c hc => (digit_char_facts c (hall c hc)).1
  unfold pyInt
  rw [hstrip]
  obtain ⟨c, rest, hl⟩ : ∃ c rest, natToChars n = c :: rest := by
    cases he : natToChars n with
    | nil => exact absurd he (isDigitSeq_ne_nil _ hd)
    | cons c rest => exact ⟨c, rest, rfl⟩
  rw [hl]
  have hfacts := digit_char_facts c (hall c (hl ▸ List.mem_cons_self c rest))
  split
  · rename_i heq
    rw [List.cons.injEq] at heq
    exact absurd heq.1 hfacts.2.2.1
  · rename_i heq
    rw [List.cons.injEq] at heq
    exact absurd heq.1 hfacts.2.1
  · rw [← hl, natDigits_natToChars]
    rfl

/-- C10.  `save_progress` followed by `load_progress` reproduces exactly the
original page-index-to-text mapping: every key survives the round trip
through its decimal string encoding (`str(k)` when saving, `int(k)` when
loading). -/
theorem c10_progress_roundtrip (m : List (Nat × String)) :
    load_progress (save_progress m) = some (m.map fun kv => ((kv.1 : Int), kv.2)) := by
  induction m with
  | nil => rfl
  | cons kv rest ih =>
    rw [List.map_cons]
    show load_progress ((natToChars kv.1, kv.2) :: save_progress rest) = _
    rw [load_progress, pyInt_natToChars, ih]
    rfl

/-! ### Method assignment (C6) -/

/-- The method the claim predicts for page `i`: the method of the
last-listed override whose page range covers `i`, or the default when no
override covers it. -/
def lastOverrideMethod (defaultMethod : String) (ovs : List Override) (total : Nat)
    (i : Int) : String :=
  match ovs.reverse.find? fun ov => decide (i ∈ (parsePages ov.pages total).getD ∅) with
  | some ov => ov.method
  | none => defaultMethod

theorem assignMethods_aux (ovs : List Override) (total : Nat) :
    ∀ (g : Int → String) (f : Int → String),
      ovs.foldlM
          (fun f ov => (parsePages ov.pages total).map
            fun ps i => if i ∈ ps then ov.method else f i) g = some f →
      ∀ i : Int,
        f i = match ovs.reverse.find? fun ov =>
            decide (i ∈ (parsePages ov.pages total).getD ∅) with
          | some ov => ov.method
          | none => g i := by
  induction ovs with
  | nil =>
    intro g f hf i
    have hgf : g = f := Option.some.inj hf
    subst hgf
    rfl
  | cons ov rest ih =>
    intro g f hf i
    rw [List.foldlM_cons] at hf
    cases hps : parsePages ov.pages total with
    | none =>
      rw [hps] at hf
      exact absurd (show (none : Option (Int → String)) = some f from hf) (by simp)
    | some ps =>
      rw [hps] at hf
      have step := ih (fun j => if j ∈ ps then ov.method else g j) f (by exact hf) i
      rw [step, List.reverse_cons, List.find?_append]
      cases hfind : rest.reverse.find? fun o =>
          decide (i ∈ (parsePages o.pages total).getD ∅) with
      | some o => rfl
      | none =>
        simp only [Option.none_or]
        rw [List.find?_singleton]
        by_cases hm : i ∈ ps
        · rw [if_pos (by simp [hps, hm])]
          simp [hm, hps]
        · rw [if_neg (by simp [hps, hm])]
          simp [hm, hps]

/-- C6.  When every override's page specification parses, the assignment
built by `extract_pdf_method` gives each page index in `[0, total)` exactly
one method: the method of the last-listed override covering it (ranges are
1-based inclusive in the configuration, 0-based internally via
`parse_pages`), and the default method when no override covers it. -/
theorem c6_method_assignment (defaultMethod : String) (ovs : List Override)
    (total : Nat) (f : Int → String)
    (hf : assignMethods defaultMethod ovs total = some f) :
    ∀ i : Int, 0 ≤ i → i < total →
      f i = lastOverrideMethod defaultMethod ovs total i := by
  intro i _ _
  exact assignMethods_aux ovs total _ f hf i

/-- C6, witness: the spec's example.  With default `auto` and overrides
`[{pages "1-10", ocr}, {pages "5-6", ai}]` on a 12-page document, 0-based
pages 4 and 5 (1-based 5 and 6) get `ai`, the rest of 0–9 get `ocr`, and
pages 10, 11 keep the default. -/
theorem c6_method_assignment_witness :
    ((assignMethods "auto" [⟨"1-10".data, "ocr"⟩, ⟨"5-6".data, "ai"⟩] 12).map
      fun f => [f 0, f 3, f 4, f 5, f 6, f 9, f 10, f 11]) =
      some ["ocr", "ocr", "ai", "ai", "ocr", "ocr", "auto", "auto"] := by
  have hs : (assignMethods "auto" [⟨"1-10".data, "ocr"⟩, ⟨"5-6".data, "ai"⟩] 12).isSome :=
    rfl
  obtain ⟨f, hf⟩ := Option.isSome_iff_exists.mp hs
  rw [hf]
  simp only [Option.map_some']
  have e := c6_method_assignment "auto" _ 12 f hf
  rw [e 0 (by decide) (by decide), e 3 (by decide) (by decide), e 4 (by decide) (by decide),
    e 5 (by decide) (by decide), e 6 (by decide) (by decide), e 9 (by decide) (by decide),
    e 10 (by decide) (by decide), e 11 (by decide) (by decide)]
  rfl

/-! ### Output assembly (C9) -/

theorem filterMap_if_eq_filter (keys : List Nat) (f : Nat → Option String)
    (p : String → Prop) [DecidablePred p] :
    (keys.filterMap fun i =>
        match f i with
        | some t => if p t then some t else none
        | none => none) =
      (keys.filterMap f).filter fun t => decide (p t) := by
  induction keys with
  | nil => rfl
  | cons k keys ih =>
    cases hf : f k with
    | none =>
      rw [List.filterMap_cons, List.filterMap_cons, hf]
      simpa using ih
    | some t =>
      rw [List.filterMap_cons, List.filterMap_cons, hf]
      by_cases hp : p t
      · simp only [if_pos hp]
        rw [List.filter_cons]
        rw [if_pos (by simpa using hp)]
        rw [ih]
      · simp only [if_neg hp]
        rw [List.filter_cons]
        rw [if_neg (by simpa using hp)]
        exact ih

/-- C9.  The unsplit PDF output is the result-map texts in strictly
increasing page-index order, with whitespace-only pages dropped, joined by
the horizontal-rule separator `"\n\n---\n\n"`; every joined part is
non-blank, so no empty separator segments occur. -/
theorem c9_output_assembly (results : List (Nat × String))
    (hnd : (results.map Prod.fst).Nodup) :
    assembleContent results =
      String.intercalate "\n\n---\n\n"
        ((((results.map Prod.fst).insertionSort (· ≤ ·)).filterMap
            (lookupKey results)).filter fun t => decide (pyStrip t ≠ ""))
    ∧ List.Pairwise (· < ·) ((results.map Prod.fst).insertionSort (· ≤ ·))
    ∧ ∀ t ∈ (((results.map Prod.fst).insertionSort (· ≤ ·)).filterMap
          (lookupKey results)).filter fun t => decide (pyStrip t ≠ ""),
        pyStrip t ≠ "" := by
  refine ⟨?_, ?_, ?_⟩
  · unfold assembleContent
    dsimp only
    rw [filterMap_if_eq_filter]
  · have hsorted : List.Pairwise (· ≤ ·)
        ((results.map Prod.fst).insertionSort (· ≤ ·)) :=
      List.sorted_insertionSort (· ≤ ·) _
    have hnd2 : ((results.map Prod.fst).insertionSort (· ≤ ·)).Nodup :=
      (List.perm_insertionSort (· ≤ ·) _).nodup_iff.mpr hnd
    exact (hsorted.and hnd2).imp fun h => lt_of_le_of_ne h.1 h.2
  · intro t ht
    have := List.of_mem_filter ht
    simpa using this

/-- C9, witness: a three-page result map with an unordered association list
and a whitespace-only page assembles to the two non-blank pages in index
order, joined by one separator. -/
theorem c9_output_assembly_witness :
    assembleContent [(2, "b"), (0, "a"), (1, "  ")] =
      String.intercalate "\n\n---\n\n"
        (((([(2, "b"), (0, "a"), (1, "  ")].map Prod.fst).insertionSort (· ≤ ·)).filterMap
            (lookupKey [(2, "b"), (0, "a"), (1, "  ")])).filter
          fun t => decide (pyStrip t ≠ ""))
    ∧ assembleContent [(2, "b"), (0, "a"), (1, "  ")] = "a\n\n---\n\nb" :=
  ⟨(c9_output_assembly [(2, "b"), (0, "a"), (1, "  ")] (by decide)).1, by decide⟩

/-! ### The VLM retry loop (C3) -/

theorem vlmGo_spec (outcomes : Nat → VlmOut) :
    ∀ (fuel k : Nat),
      ((vlmGo outcomes fuel k).2.length ≤ fuel)
      ∧ (∀ (j : Nat) (a : VlmAttempt), (vlmGo outcomes fuel k).2.get? j = some a →
          j + 1 < (vlmGo outcomes fuel k).2.length →
          (∀ msg, a.out = .err msg →
            transientErr msg = true ∧ a.waitSecs = some ((k + j + 1) * 3) ∧ a.rotated = true)
          ∧ (∀ s, a.out = .ok s →
            is_garbage s = true ∧ a.waitSecs = none ∧ a.rotated = true))
      ∧ ((∀ a ∈ (vlmGo outcomes fuel k).2, vlmAttemptFailed a = true) →
          (vlmGo outcomes fuel k).1 = "") := by
  intro fuel
  induction fuel with
  | zero =>
    intro k
    exact ⟨Nat.le_refl 0, fun j a hj _ => by simp [vlmGo] at hj, fun _ => rfl⟩
  | succ fuel ih =>
    intro k
    unfold vlmGo
    cases houtk : outcomes k with
    | ok s =>
      dsimp only
      by_cases hg : is_garbage s = true
      · rw [if_pos hg]
        by_cases hk : k < 2
        · rw [if_pos hk]
          refine ⟨?_, ?_, ?_⟩
          · simpa using Nat.succ_le_succ (ih (k + 1)).1
          · intro j a hj hlt
            cases j with
            | zero =>
              simp only [List.get?_cons_zero, Option.some.injEq] at hj
              subst hj
              exact ⟨fun msg hmsg => by simp at hmsg,
                fun s2 hs2 => by
                  simp only [VlmOut.ok.injEq] at hs2
                  exact ⟨hs2 ▸ hg, rfl, rfl⟩⟩
            | succ j =>
              simp only [List.get?_cons_succ] at hj
              have hlt2 : j + 1 < (vlmGo outcomes fuel (k + 1)).2.length := by
                simpa using hlt
              have := ((ih (k + 1)).2.1 j a hj hlt2)
              refine ⟨fun msg hmsg => ?_, this.2⟩
              have h3 := this.1 msg hmsg
              refine ⟨h3.1, ?_, h3.2.2⟩
              rw [h3.2.1]
              congr 1
              omega
          · intro hall
            exact ((ih (k + 1)).2.2) fun a ha =>
              hall a (List.mem_cons_of_mem _ ha)
        · rw [if_neg hk]
          refine ⟨by simp, ?_, fun _ => rfl⟩
          intro j a hj hlt
          simp only [List.length_singleton] at hlt
          omega
      · rw [if_neg hg]
        refine ⟨by simp, ?_, ?_⟩
        · intro j a hj hlt
          simp only [List.length_singleton] at hlt
          omega
        · intro hall
          have := hall ⟨.ok s, none, false⟩ (List.mem_singleton_self _)
          rw [vlmAttemptFailed] at this
          simp only at this
          exact absurd this hg
    | err msg =>
      dsimp only
      by_cases hc : k < 2 ∧ transientErr msg = true
      · rw [if_pos hc]
        refine ⟨?_, ?_, ?_⟩
        · simpa using Nat.succ_le_succ (ih (k + 1)).1
        · intro j a hj hlt
          cases j with
          | zero =>
            simp only [List.get?_cons_zero, Option.some.injEq] at hj
            subst hj
            refine ⟨fun m hm => ?_, fun s2 hs2 => by simp at hs2⟩
            simp only [VlmOut.err.injEq] at hm
            subst hm
            exact ⟨hc.2, rfl, rfl⟩
          | succ j =>
            simp only [List.get?_cons_succ] at hj
            have hlt2 : j + 1 < (vlmGo outcomes fuel (k + 1)).2.length := by
              simpa using hlt
            have := ((ih (k + 1)).2.1 j a hj hlt2)
            refine ⟨fun m hm => ?_, this.2⟩
            have h3 := this.1 m hm
            refine ⟨h3.1, ?_, h3.2.2⟩
            rw [h3.2.1]
            congr 1
            omega
        · intro hall
          exact ((ih (k + 1)).2.2) fun a ha =>
            hall a (List.mem_cons_of_mem _ ha)
      · rw [if_neg hc]
        refine ⟨by simp, ?_, fun _ => rfl⟩
        intro j a hj hlt
        simp only [List.length_singleton] at hlt
        omega

/-- C3.  Every call of `ocr_vlm` makes at most 3 attempts; every non-final
attempt is either a transient error (whose lowercased text contains one of
the 429/rate/connection/timeout/5xx markers), after which the call sleeps
`attempt_number * 3` seconds and rotates to the next pool model, or a reply
the quality gate `is_garbage` rejects, after which it rotates with no wait;
and when every attempt fails or is garbage the call returns the empty
string instead of raising. -/
theorem c3_ocr_vlm_retries (outcomes : Nat → VlmOut) :
    ((ocrVlm outcomes).2.length ≤ 3)
    ∧ (∀ (j : Nat) (a : VlmAttempt), (ocrVlm outcomes).2.get? j = some a →
        j + 1 < (ocrVlm outcomes).2.length →
        (∀ msg, a.out = .err msg →
          transientErr msg = true ∧ a.waitSecs = some ((j + 1) * 3) ∧ a.rotated = true)
        ∧ (∀ s, a.out = .ok s →
          is_garbage s = true ∧ a.waitSecs = none ∧ a.rotated = true))
    ∧ ((∀ a ∈ (ocrVlm outcomes).2, vlmAttemptFailed a = true) →
        (ocrVlm outcomes).1 = "") := by
  have h := vlmGo_spec outcomes 3 0
  refine ⟨h.1, fun j a hj hlt => ?_, h.2.2⟩
  have h2 := h.2.1 j a hj hlt
  refine ⟨fun msg hm => ?_, h2.2⟩
  have h3 := h2.1 msg hm
  refine ⟨h3.1, ?_, h3.2.2⟩
  rw [h3.2.1]
  congr 2
  omega

/-- C3, witness: three consecutive timeouts exhaust the retry budget and the
call returns the empty string after exactly 3 attempts; the first attempt
waited 3 seconds, the second 6. -/
theorem c3_ocr_vlm_retries_witness :
    (ocrVlm fun _ => VlmOut.err "request timeout".data).1 = ""
    ∧ (ocrVlm fun _ => VlmOut.err "request timeout".data).2.length ≤ 3 := by
  have h := c3_ocr_vlm_retries fun _ => VlmOut.err "request timeout".data
  exact ⟨h.2.2 (by decide), h.1⟩

/-! ### The quality gate, declaratively (C7) -/

theorem contains_eq_false_iff_not_mem (l : List Char) (a : Char) :
    l.contains a = false ↔ a ∉ l := by
  constructor
  · intro h hm
    have he : l.elem a = true := List.elem_iff.mpr hm
    rw [show l.elem a = l.contains a from rfl, h] at he
    exact Bool.false_ne_true he
  · intro hm
    rw [Bool.eq_false_iff]
    intro hc
    exact hm (List.elem_iff.mp hc)

theorem length_flatten_replicate (n : Nat) (u : List Char) :
    (List.flatten (List.replicate n u)).length = n * u.length := by
  induction n with
  | zero => simp
  | succ n ih =>
    rw [List.replicate_succ, List.flatten_cons, List.length_append, ih]
    ring

theorem take_length_flatten_replicate (u : List Char) :
    (List.flatten (List.replicate 5 u)).take u.length = u := by
  rw [List.replicate_succ, List.flatten_cons, List.take_left]

theorem hasRepetition_iff (l : List Char) :
    hasRepetition l = true ↔
      ∃ i u, 4 ≤ List.length u ∧ List.length u ≤ 50 ∧ '\n' ∉ u ∧
        (l.drop i).take (5 * List.length u) = List.flatten (List.replicate 5 u) := by
  constructor
  · intro h
    rw [hasRepetition, List.any_eq_true] at h
    obtain ⟨i, hi, h⟩ := h
    rw [List.any_eq_true] at h
    obtain ⟨L, hL, h⟩ := h
    rw [repeatedAt] at h
    simp only [Bool.and_eq_true, decide_eq_true_eq, Bool.not_eq_true', beq_iff_eq] at h
    obtain ⟨⟨⟨⟨h4, h50⟩, hlen⟩, hnl⟩, hwin⟩ := h
    have hul : ((l.drop i).take L).length = L := by
      rw [List.length_take, List.length_drop]
      omega
    refine ⟨i, (l.drop i).take L, ?_, ?_, ?_, ?_⟩
    · rw [hul]; exact h4
    · rw [hul]; exact h50
    · exact (contains_eq_false_iff_not_mem _ _).mp hnl
    · rw [hul]; exact hwin
  · rintro ⟨i, u, h4, h50, hnl, hwin⟩
    have hwl := congrArg List.length hwin
    rw [List.length_take, List.length_drop, length_flatten_replicate] at hwl
    have hbound : i + 5 * u.length ≤ l.length := by omega
    have hil : i < l.length := by omega
    have hueq : (l.drop i).take u.length = u := by
      have : ((l.drop i).take (5 * u.length)).take u.length = (l.drop i).take u.length := by
        rw [List.take_take, Nat.min_eq_left (by omega)]
      rw [← this, hwin, take_length_flatten_replicate]
    rw [hasRepetition, List.any_eq_true]
    refine ⟨i, List.mem_range.mpr hil, ?_⟩
    rw [List.any_eq_true]
    refine ⟨u.length, List.mem_range.mpr (by omega), ?_⟩
    rw [repeatedAt]
    simp only [Bool.and_eq_true, decide_eq_true_eq, Bool.not_eq_true', beq_iff_eq]
    refine ⟨⟨⟨⟨h4, h50⟩, hbound⟩, ?_⟩, ?_⟩
    · rw [hueq]
      exact (contains_eq_false_iff_not_mem _ _).mpr hnl
    · rw [hueq]
      exact hwin

theorem lowCjkRatio_iff (l : List Char) :
    lowCjkRatio l = true ↔
      50 < l.length ∧ (cjkCount l : ℚ) / l.length < 3 / 10 := by
  rw [lowCjkRatio, Bool.and_eq_true, decide_eq_true_eq, decide_eq_true_eq]
  constructor
  · rintro ⟨h1, h2⟩
    refine ⟨h1, ?_⟩
    rw [div_lt_div_iff₀ (by positivity) (by norm_num)]
    calc (cjkCount l : ℚ) * 10 = ((10 * cjkCount l : Nat) : ℚ) := by push_cast; ring
    _ < ((3 * l.length : Nat) : ℚ) := by exact_mod_cast h2
    _ = 3 * l.length := by push_cast; ring
  · rintro ⟨h1, h2⟩
    refine ⟨h1, ?_⟩
    rw [div_lt_div_iff₀ (by positivity) (by norm_num)] at h2
    have : ((10 * cjkCount l : Nat) : ℚ) < ((3 * l.length : Nat) : ℚ) := by
      push_cast
      linarith
    exact_mod_cast this

theorem manySingleCharLines_iff (l : List Char) :
    manySingleCharLines l = true ↔
      10 < (l.splitOn '\n').length ∧
        (1 : ℚ) / 2 <
          (((l.splitOn '\n').filter fun ln => (stripChars ln).length = 1).length : ℚ) /
            (l.splitOn '\n').length := by
  rw [manySingleCharLines]
  simp only [Bool.and_eq_true, decide_eq_true_eq]
  constructor
  · rintro ⟨h1, h2⟩
    refine ⟨h1, ?_⟩
    rw [div_lt_div_iff₀ (by norm_num) (by positivity)]
    calc (1 : ℚ) * (l.splitOn '\n').length = (((l.splitOn '\n').length : Nat) : ℚ) := by
          ring
    _ < ((2 * ((l.splitOn '\n').filter fun ln => (stripChars ln).length = 1).length : Nat) : ℚ) := by
          exact_mod_cast h2
    _ = _ * 2 := by push_cast; ring
  · rintro ⟨h1, h2⟩
    refine ⟨h1, ?_⟩
    rw [div_lt_div_iff₀ (by norm_num) (by positivity)] at h2
    have : (((l.splitOn '\n').length : Nat) : ℚ) <
        ((2 * ((l.splitOn '\n').filter fun ln => (stripChars ln).length = 1).length : Nat) : ℚ) := by
      push_cast
      linarith
    exact_mod_cast this

/-- The spec vector `"ab" * 20`: 40 characters of alternating `ab`. -/
def abab40 : String := "abababababababababababababababababababab"

/-- A 200-character test string: 180 Latin letters (90 percent) with spaces
and punctuation, no repeated 4-to-50-character unit, no hallucination
phrase. -/
def latin200 : String := "Readingdeeply strengthens vocabulary sharpens.judgment broadens horizons Thoughtful readers question sources,compare arguments distill meaning Feweractivities;reward patience sogenerously asbooks true"

/-- A 60-character test string: 48 emoji (80 percent) and 12 Latin
letters — the in-class fraction 12/60 = 0.2 is below the 0.3 threshold. -/
def emoji60 : String := "😀😁😂🤣😃😄😅😆😉😊😋😎😍😘🥰😗😙😚🙂🤗🤩🤔🤨😐😑😶🙄😏😣😥😮🤐😯😪😫😴😌😛😜😝🤤😒😓😔😕🙃🤑😲ABCDEFGHIJKL"

/-- `"ab\ncd"` repeated 5 times: a 25-character string in which the
5-character substring `"ab\ncd"` repeats 5 times contiguously, yet the
repetition regex cannot match it because `.` does not cross newlines. -/
def nlRep25 : String := "ab\ncdab\ncdab\ncdab\ncdab\ncd"

/-- C7, counterexample.  `is_garbage` is false on `"ab\ncd" * 5` although
the claim's repetition condition — some substring of length 4–50 repeats at
least 5 times contiguously — holds there (witness `"ab\ncd"` at offset 0):
the regex `(.{4,50})\1{4,}` never captures across a newline. -/
theorem c7_counterexample :
    is_garbage nlRep25 = false
    ∧ (∃ i u, 4 ≤ List.length u ∧ List.length u ≤ 50 ∧
        (nlRep25.data.drop i).take (5 * List.length u) =
          List.flatten (List.replicate 5 u)) := by
  constructor
  · decide
  · exact ⟨0, "ab\ncd".data, by decide, by decide, by decide⟩

set_option maxRecDepth 100000 in
set_option maxHeartbeats 4000000 in
/-- C7, amended.  `is_garbage(text)` is true exactly when: the text has
fewer than 10 characters; some substring of length 4–50 **containing no
newline** repeats at least 5 times contiguously; the text is longer than 50
characters with an in-class (CJK/Latin/digit/standard-punctuation) fraction
below 0.3; there are more than 10 lines and over half are exactly one
visible character; or a fixed hallucination phrase pattern matches.  The
spec's four vectors hold: the empty string and `"ab" * 20` are garbage, a
200-character 90-percent-Latin string with punctuation is not, and a
60-character 80-percent-emoji string is. -/
theorem c7_is_garbage_characterization :
    (∀ s : String,
      is_garbage s = true ↔
        (s.data.length < 10
         ∨ (∃ i u, 4 ≤ List.length u ∧ List.length u ≤ 50 ∧ '\n' ∉ u ∧
              (s.data.drop i).take (5 * List.length u) =
                List.flatten (List.replicate 5 u))
         ∨ (50 < s.data.length ∧ (cjkCount s.data : ℚ) / s.data.length < 3 / 10)
         ∨ (10 < (s.data.splitOn '\n').length ∧
              (1 : ℚ) / 2 <
                (((s.data.splitOn '\n').filter
                    fun ln => (stripChars ln).length = 1).length : ℚ) /
                  (s.data.splitOn '\n').length)
         ∨ matchesHallucination s.data = true))
    ∧ is_garbage "" = true
    ∧ is_garbage abab40 = true
    ∧ is_garbage latin200 = false
    ∧ is_garbage emoji60 = true := by
  refine ⟨?_, by decide, by decide, by decide, by decide⟩
  intro s
  rw [is_garbage]
  simp only [Bool.or_eq_true, decide_eq_true_eq]
  constructor
  · intro h
    rcases h with ((((h | h) | h) | h) | h)
    · exact Or.inl h
    · exact Or.inr (Or.inl ((hasRepetition_iff s.data).mp h))
    · exact Or.inr (Or.inr (Or.inl ((lowCjkRatio_iff s.data).mp h)))
    · exact Or.inr (Or.inr (Or.inr (Or.inl ((manySingleCharLines_iff s.data).mp h))))
    · exact Or.inr (Or.inr (Or.inr (Or.inr h)))
  · intro h
    rcases h with h | h | h | h | h
    · exact Or.inl (Or.inl (Or.inl (Or.inl h)))
    · exact Or.inl (Or.inl (Or.inl (Or.inr ((hasRepetition_iff s.data).mpr h))))
    · exact Or.inl (Or.inl (Or.inr ((lowCjkRatio_iff s.data).mpr h)))
    · exact Or.inl (Or.inr ((manySingleCharLines_iff s.data).mpr h))
    · exact Or.inr h

/-! ### Pipeline lemmas (C1, C4) -/

/-- A page is accounted for: it has a result-map entry or sits in the retry
set awaiting the next round. -/
abbrev pageDone (st : PipeState) (j : Nat) : Prop :=
  (st.res j).isSome ∨ j ∈ st.retry

theorem retryAdd_mem (retry : List Nat) (idx j : Nat) (h : j ∈ retry) :
    j ∈ retryAdd retry idx := by
  unfold retryAdd
  split
  · exact h
  · exact List.mem_cons_of_mem idx h

theorem retryAdd_self (retry : List Nat) (idx : Nat) : idx ∈ retryAdd retry idx := by
  unfold retryAdd
  split
  · assumption
  · exact List.mem_cons_self idx retry

theorem retryAdd_sub (retry : List Nat) (idx : Nat) :
    retryAdd retry idx ⊆ idx :: retry := by
  unfold retryAdd
  split
  · exact List.subset_cons_self idx retry
  · exact fun a ha => ha

theorem retryAdd_nodup (retry : List Nat) (idx : Nat) (h : retry.Nodup) :
    (retryAdd retry idx).Nodup := by
  unfold retryAdd
  split
  · exact h
  · exact List.nodup_cons.mpr ⟨by assumption, h⟩

theorem cleanWorkerStep_retry_mem (c : String) (idx : Nat) (res : ResultMap)
    (retry : List Nat) (j : Nat) (h : j ∈ retry) :
    j ∈ (cleanWorkerStep c idx res retry).2 := by
  unfold cleanWorkerStep
  split
  · exact retryAdd_mem retry idx j h
  · split
    · exact h
    · exact h

theorem cleanWorkerStep_retry_sub (c : String) (idx : Nat) (res : ResultMap)
    (retry : List Nat) :
    (cleanWorkerStep c idx res retry).2 ⊆ idx :: retry := by
  unfold cleanWorkerStep
  split
  · exact retryAdd_sub retry idx
  · split
    · exact List.subset_cons_self idx retry
    · exact List.subset_cons_self idx retry

theorem cleanWorkerStep_retry_nodup (c : String) (idx : Nat) (res : ResultMap)
    (retry : List Nat) (h : retry.Nodup) :
    (cleanWorkerStep c idx res retry).2.Nodup := by
  unfold cleanWorkerStep
  split
  · exact retryAdd_nodup retry idx h
  · split
    · exact h
    · exact h

theorem cleanWorkerStep_res_other (c : String) (idx : Nat) (res : ResultMap)
    (retry : List Nat) (j : Nat) (hj : j ≠ idx) :
    (cleanWorkerStep c idx res retry).1 j = res j := by
  unfold cleanWorkerStep
  split
  · show ResultMap.erase res idx j = res j
    unfold ResultMap.erase
    rw [if_neg hj]
  · split
    · show ResultMap.insert res idx c j = res j
      unfold ResultMap.insert
      rw [if_neg hj]
    · rfl

theorem cleanWorkerStep_done_self (c : String) (idx : Nat) (res : ResultMap)
    (retry : List Nat) (h : (res idx).isSome) :
    ((cleanWorkerStep c idx res retry).1 idx).isSome ∨
      idx ∈ (cleanWorkerStep c idx res retry).2 := by
  unfold cleanWorkerStep
  split
  · exact Or.inr (retryAdd_self retry idx)
  · split
    · refine Or.inl ?_
      show (ResultMap.insert res idx c idx).isSome
      unfold ResultMap.insert
      rw [if_pos rfl]
      rfl
    · exact Or.inl h

theorem insert_isSome_self (res : ResultMap) (idx : Nat) (v : String) :
    (ResultMap.insert res idx v idx).isSome := by
  unfold ResultMap.insert
  rw [if_pos rfl]
  rfl

theorem insert_res_other (res : ResultMap) (idx j : Nat) (v : String) (hj : j ≠ idx) :
    ResultMap.insert res idx v j = res j := by
  unfold ResultMap.insert
  rw [if_neg hj]

theorem runTask_log (o : Oracle) (doClean : Bool) (round : Nat) (st : PipeState)
    (t : Nat × String) :
    (runTask o doClean round st t).log = st.log ++ [(round, t.1, t.2)] := by
  unfold runTask
  dsimp only
  split
  · rfl
  · split
    · rfl
    · rfl

theorem runTask_res_other (o : Oracle) (doClean : Bool) (round : Nat) (st : PipeState)
    (t : Nat × String) (j : Nat) (hj : j ≠ t.1) :
    (runTask o doClean round st t).res j = st.res j := by
  unfold runTask
  dsimp only
  split
  · rfl
  · split
    · show (cleanWorkerStep _ _ _ _).1 j = st.res j
      rw [cleanWorkerStep_res_other _ _ _ _ _ hj, insert_res_other _ _ _ _ hj]
    · exact insert_res_other _ _ _ _ hj

theorem runTask_retry_mem (o : Oracle) (doClean : Bool) (round : Nat) (st : PipeState)
    (t : Nat × String) (j : Nat) (h : j ∈ st.retry) :
    j ∈ (runTask o doClean round st t).retry := by
  unfold runTask
  dsimp only
  split
  · exact h
  · split
    · exact cleanWorkerStep_retry_mem _ _ _ _ j h
    · exact h

theorem runTask_retry_sub (o : Oracle) (doClean : Bool) (round : Nat) (st : PipeState)
    (t : Nat × String) :
    (runTask o doClean round st t).retry ⊆ t.1 :: st.retry := by
  unfold runTask
  dsimp only
  split
  · exact List.subset_cons_self t.1 st.retry
  · split
    · exact cleanWorkerStep_retry_sub _ _ _ _
    · exact List.subset_cons_self t.1 st.retry

theorem runTask_retry_nodup (o : Oracle) (doClean : Bool) (round : Nat) (st : PipeState)
    (t : Nat × String) (h : st.retry.Nodup) :
    (runTask o doClean round st t).retry.Nodup := by
  unfold runTask
  dsimp only
  split
  · exact h
  · split
    · exact cleanWorkerStep_retry_nodup _ _ _ _ h
    · exact h

theorem runTask_done_mono (o : Oracle) (doClean : Bool) (round : Nat) (st : PipeState)
    (t : Nat × String) (j : Nat) (h : pageDone st j) :
    pageDone (runTask o doClean round st t) j := by
  by_cases hj : j = t.1
  · subst hj
    unfold runTask
    dsimp only
    split
    · exact h
    · split
      · exact cleanWorkerStep_done_self _ _ _ _ (insert_isSome_self _ _ _)
      · exact Or.inl (insert_isSome_self _ _ _)
  · rcases h with h | h
    · exact Or.inl (by rw [runTask_res_other _ _ _ _ _ _ hj]; exact h)
    · exact Or.inr (runTask_retry_mem _ _ _ _ _ _ h)

theorem runTask_done_self (o : Oracle) (doClean : Bool) (round : Nat) (st : PipeState)
    (t : Nat × String) (h : o.proc round t.1 t.2 ≠ "") :
    pageDone (runTask o doClean round st t) t.1 := by
  unfold runTask
  dsimp only
  rw [if_neg h]
  split
  · exact cleanWorkerStep_done_self _ _ _ _ (insert_isSome_self _ _ _)
  · exact Or.inl (insert_isSome_self _ _ _)

theorem runTask_J (o : Oracle) (doClean : Bool) (round : Nat) (st : PipeState)
    (t : Nat × String) (hni : t.1 ∉ st.retry)
    (hJ : ∀ j ∈ st.retry, st.res j = none) :
    ∀ j ∈ (runTask o doClean round st t).retry,
      (runTask o doClean round st t).res j = none := by
  unfold runTask
  dsimp only
  split
  · exact hJ
  · split
    · intro j hj
      dsimp only at hj ⊢
      refine (c5_clean_error_retry _ t.1 _ st.retry).2 hni ?_ j hj
      intro j2 hj2
      have hne : j2 ≠ t.1 := fun he => hni (he ▸ hj2)
      rw [insert_res_other _ _ _ _ hne]
      exact hJ j2 hj2
    · intro j hj
      dsimp only at hj ⊢
      have hne : j ≠ t.1 := fun he => hni (he ▸ hj)
      rw [insert_res_other _ _ _ _ hne]
      exact hJ j hj

theorem runPipeline_retry_mem (o : Oracle) (doClean : Bool) (round : Nat) :
    ∀ (tasks : List (Nat × String)) (st : PipeState) (j : Nat), j ∈ st.retry →
      j ∈ (runPipeline o doClean round tasks st).retry := by
  intro tasks
  induction tasks with
  | nil => exact fun st j h => h
  | cons t ts ih =>
    intro st j h
    exact ih _ j (runTask_retry_mem o doClean round st t j h)

theorem runPipeline_done_mono (o : Oracle) (doClean : Bool) (round : Nat) :
    ∀ (tasks : List (Nat × String)) (st : PipeState) (j : Nat), pageDone st j →
      pageDone (runPipeline o doClean round tasks st) j := by
  intro tasks
  induction tasks with
  | nil => exact fun st j h => h
  | cons t ts ih =>
    intro st j h
    exact ih _ j (runTask_done_mono o doClean round st t j h)

theorem runPipeline_done (o : Oracle) (doClean : Bool) (round : Nat) :
    ∀ (tasks : List (Nat × String)) (st : PipeState) (j : Nat),
      (pageDone st j ∨ ∃ m, (j, m) ∈ tasks) →
      (∀ m, o.proc round j m ≠ "") →
      pageDone (runPipeline o doClean round tasks st) j := by
  intro tasks
  induction tasks with
  | nil =>
    intro st j h _
    rcases h with h | ⟨m, hm⟩
    · exact h
    · exact absurd hm (List.not_mem_nil _)
  | cons t ts ih =>
    intro st j h hproc
    rcases h with h | ⟨m, hm⟩
    · exact ih _ j (Or.inl (runTask_done_mono o doClean round st t j h)) hproc
    · rcases List.mem_cons.mp hm with hm | hm
      · have hj : j = t.1 := by rw [← hm]
        subst hj
        refine ih _ t.1 (Or.inl ?_) hproc
        exact runTask_done_self o doClean round st t (by
          have : t = (t.1, t.2) := rfl
          rw [← hm] at this
          exact hproc t.2)
      · exact ih _ j (Or.inr ⟨m, hm⟩) hproc

theorem runPipeline_retry_nodup (o : Oracle) (doClean : Bool) (round : Nat) :
    ∀ (tasks : List (Nat × String)) (st : PipeState), st.retry.Nodup →
      (runPipeline o doClean round tasks st).retry.Nodup := by
  intro tasks
  induction tasks with
  | nil => exact fun st h => h
  | cons t ts ih =>
    intro st h
    exact ih _ (runTask_retry_nodup o doClean round st t h)

theorem runPipeline_retry_sub (o : Oracle) (doClean : Bool) (round : Nat) :
    ∀ (tasks : List (Nat × String)) (st : PipeState),
      (runPipeline o doClean round tasks st).retry ⊆ tasks.map Prod.fst ++ st.retry := by
  intro tasks
  induction tasks with
  | nil => exact fun st => by simp [runPipeline]
  | cons t ts ih =>
    intro st a ha
    have h1 := ih (runTask o doClean round st t) ha
    rcases List.mem_append.mp h1 with h | h
    · exact List.mem_append.mpr (Or.inl (List.mem_cons_of_mem _ h))
    · rcases List.mem_cons.mp (runTask_retry_sub o doClean round st t h) with h2 | h2
      · exact List.mem_append.mpr (Or.inl (by rw [h2]; exact List.mem_cons_self _ _))
      · exact List.mem_append.mpr (Or.inr h2)

theorem runPipeline_J (o : Oracle) (doClean : Bool) (round : Nat) :
    ∀ (tasks : List (Nat × String)) (st : PipeState),
      (tasks.map Prod.fst).Nodup →
      (∀ x ∈ tasks, x.1 ∉ st.retry) →
      (∀ j ∈ st.retry, st.res j = none) →
      ∀ j ∈ (runPipeline o doClean round tasks st).retry,
        (runPipeline o doClean round tasks st).res j = none := by
  intro tasks
  induction tasks with
  | nil => exact fun st _ _ hJ => hJ
  | cons t ts ih =>
    intro st hnd hdisj hJ
    rw [List.map_cons, List.nodup_cons] at hnd
    refine ih _ hnd.2 ?_ ?_
    · intro x hx hmem
      rcases List.mem_cons.mp (runTask_retry_sub o doClean round st t hmem) with h | h
      · exact hnd.1 (h ▸ List.mem_map_of_mem Prod.fst hx)
      · exact hdisj x (List.mem_cons_of_mem t hx) h
    · exact runTask_J o doClean round st t (hdisj t (List.mem_cons_self t ts)) hJ

theorem runPipeline_log (o : Oracle) (doClean : Bool) (round : Nat) :
    ∀ (tasks : List (Nat × String)) (st : PipeState),
      (runPipeline o doClean round tasks st).log =
        st.log ++ tasks.map fun t => (round, t.1, t.2) := by
  intro tasks
  induction tasks with
  | nil => intro st; simp [runPipeline]
  | cons t ts ih =>
    intro st
    show (runPipeline o doClean round ts (runTask o doClean round st t)).log = _
    rw [ih, runTask_log, List.map_cons, List.append_assoc]
    rfl

theorem runPipeline_process (o : Oracle) (round : Nat) :
    ∀ (tasks : List (Nat × String)) (st : PipeState) (p : Nat),
      (∃ m, (p, m) ∈ tasks) →
      (∀ t, o.clean round p t = TEXT_ERROR) →
      (∀ m, o.proc round p m ≠ "") →
      p ∈ (runPipeline o true round tasks st).retry := by
  intro tasks
  induction tasks with
  | nil =>
    intro st p h _ _
    obtain ⟨m, hm⟩ := h
    exact absurd hm (List.not_mem_nil _)
  | cons t ts ih =>
    intro st p h hclean hproc
    obtain ⟨m, hm⟩ := h
    rcases List.mem_cons.mp hm with hm | hm
    · have hp : p = t.1 := by rw [← hm]
      subst hp
      refine runPipeline_retry_mem o true round ts _ t.1 ?_
      unfold runTask
      dsimp only
      rw [if_neg (hproc t.2)]
      rw [if_pos rfl]
      show t.1 ∈ (cleanWorkerStep (o.clean round t.1 _) t.1 _ _).2
      rw [hclean _]
      unfold cleanWorkerStep
      rw [if_pos rfl]
      exact retryAdd_self _ t.1
    · exact ih _ p ⟨m, hm⟩ hclean hproc

theorem retryRound_done (o : Oracle) (doClean : Bool) (st : PipeState) (r j : Nat)
    (hproc : ∀ m, o.proc r j m ≠ "") (h : pageDone st j) :
    pageDone (retryRound o doClean st r) j := by
  unfold retryRound
  split
  · exact h
  · rcases h with h | h
    · exact runPipeline_done o doClean r _ _ j (Or.inl (Or.inl h)) hproc
    · refine runPipeline_done o doClean r _ _ j (Or.inr ⟨"ai", ?_⟩) hproc
      exact List.mem_map.mpr
        ⟨j, (List.perm_insertionSort (· ≤ ·) st.retry).mem_iff.mpr h, rfl⟩

theorem sort_map_keys (l : List Nat) :
    (((l.insertionSort (· ≤ ·)).map fun i => (i, "ai")).map Prod.fst) =
      l.insertionSort (· ≤ ·) := by
  have hcomp : (Prod.fst ∘ fun i : Nat => (i, "ai")) = id := rfl
  rw [List.map_map, hcomp, List.map_id]

theorem retryRound_J (o : Oracle) (doClean : Bool) (st : PipeState) (r : Nat)
    (hJ : ∀ j ∈ st.retry, st.res j = none) (hnd : st.retry.Nodup) :
    (∀ j ∈ (retryRound o doClean st r).retry, (retryRound o doClean st r).res j = none)
    ∧ (retryRound o doClean st r).retry.Nodup := by
  unfold retryRound
  split
  · exact ⟨hJ, hnd⟩
  · constructor
    · refine runPipeline_J o doClean r _ _ ?_ ?_ ?_
      · rw [sort_map_keys]
        exact ((List.perm_insertionSort (· ≤ ·) st.retry).nodup_iff).mpr hnd
      · intro x _ hx
        exact List.not_mem_nil x.1 hx
      · intro j hj
        exact absurd hj (List.not_mem_nil j)
    · exact runPipeline_retry_nodup o doClean r _ _ List.nodup_nil

theorem retryRound_process (o : Oracle) (st : PipeState) (r p : Nat)
    (hp : p ∈ st.retry)
    (hclean : ∀ t, o.clean r p t = TEXT_ERROR)
    (hproc : ∀ m, o.proc r p m ≠ "") :
    p ∈ (retryRound o true st r).retry := by
  unfold retryRound
  rw [if_neg (List.ne_nil_of_mem hp)]
  refine runPipeline_process o r _ _ p ⟨"ai", ?_⟩ hclean hproc
  exact List.mem_map.mpr
    ⟨p, (List.perm_insertionSort (· ≤ ·) st.retry).mem_iff.mpr hp, rfl⟩

theorem retryRound_log_of_ne (o : Oracle) (doClean : Bool) (st : PipeState) (r : Nat)
    (hne : st.retry ≠ []) :
    (retryRound o doClean st r).log =
      st.log ++ ((st.retry.insertionSort (· ≤ ·)).map fun i => (i, "ai")).map
        fun t => (r, t.1, t.2) := by
  unfold retryRound
  rw [if_neg hne, runPipeline_log]

theorem setdefaultEmpty_mono :
    ∀ (retry : List Nat) (res : ResultMap) (j : Nat) (v : String),
      res j = some v → setdefaultEmpty res retry j = some v := by
  intro retry
  induction retry with
  | nil => exact fun res j v h => h
  | cons k rest ih =>
    intro res j v h
    show List.foldl _ (if (res k).isSome then res else res.insert k "") rest j = some v
    refine ih _ j v ?_
    split
    · exact h
    · by_cases hj : j = k
      · subst hj
        rw [h] at *
        simp_all
      · rw [insert_res_other _ _ _ _ hj]
        exact h

theorem setdefaultEmpty_isSome_mono (retry : List Nat) (res : ResultMap) (j : Nat)
    (h : (res j).isSome) : (setdefaultEmpty res retry j).isSome := by
  obtain ⟨v, hv⟩ := Option.isSome_iff_exists.mp h
  rw [setdefaultEmpty_mono retry res j v hv]
  rfl

theorem setdefaultEmpty_isSome_of_mem :
    ∀ (retry : List Nat) (res : ResultMap) (j : Nat), j ∈ retry →
      (setdefaultEmpty res retry j).isSome := by
  intro retry
  induction retry with
  | nil => exact fun res j h => absurd h (List.not_mem_nil j)
  | cons k rest ih =>
    intro res j h
    show (List.foldl _ (if (res k).isSome then res else res.insert k "") rest j).isSome
    rcases List.mem_cons.mp h with h | h
    · subst h
      have hk : ((if (res j).isSome then res else res.insert j "") j).isSome := by
        split
        · assumption
        · exact insert_isSome_self _ _ _
      obtain ⟨v, hv⟩ := Option.isSome_iff_exists.mp hk
      have := setdefaultEmpty_mono rest _ j v hv
      rw [show setdefaultEmpty (if (res j).isSome then res else res.insert j "") rest j =
        List.foldl _ (if (res j).isSome then res else res.insert j "") rest j from rfl] at this
      rw [this]
      rfl
    · exact ih _ j h

theorem setdefaultEmpty_retry_empty :
    ∀ (retry : List Nat) (res : ResultMap),
      (∀ j ∈ retry, res j = none ∨ res j = some "") →
      ∀ p ∈ retry, setdefaultEmpty res retry p = some "" := by
  intro retry
  induction retry with
  | nil => exact fun res _ p h => absurd h (List.not_mem_nil p)
  | cons k rest ih =>
    intro res hinv p hp
    have hk : (if (res k).isSome then res else res.insert k "") k = some "" := by
      rcases hinv k (List.mem_cons_self k rest) with h | h
      · rw [if_neg (by rw [h]; exact Bool.false_ne_true)]
        show ResultMap.insert res k "" k = some ""
        unfold ResultMap.insert
        rw [if_pos rfl]
      · rw [if_pos (by rw [h]; rfl)]
        exact h
    have hinv2 : ∀ j ∈ rest,
        (if (res k).isSome then res else res.insert k "") j = none ∨
        (if (res k).isSome then res else res.insert k "") j = some "" := by
      intro j hj
      by_cases hjk : j = k
      · subst hjk
        exact Or.inr hk
      · split
        · exact hinv j (List.mem_cons_of_mem k hj)
        · rw [insert_res_other _ _ _ _ hjk]
          exact hinv j (List.mem_cons_of_mem k hj)
    show List.foldl _ (if (res k).isSome then res else res.insert k "") rest p = some ""
    rcases List.mem_cons.mp hp with h | h
    · subst h
      exact setdefaultEmpty_mono rest _ p "" hk
    · exact ih _ hinv2 p h

theorem classify_done_or_task (ci : ClassifyInput) (i : Nat) (hi : i < ci.total) :
    (classifyRes ci i).isSome ∨ (i, ci.pageMethod i) ∈ classifyTasks ci := by
  unfold classifyRes classifyTasks
  by_cases h1 : (ci.initial i).isSome
  · rw [if_pos h1]
    exact Or.inl h1
  · rw [if_neg h1]
    by_cases h2 : needsOcr ci i = false
    · rw [if_pos ⟨hi, h2⟩]
      exact Or.inl rfl
    · right
      refine List.mem_map.mpr ⟨i, List.mem_filter.mpr ⟨List.mem_range.mpr hi, ?_⟩, rfl⟩
      rw [Bool.and_eq_true, Option.isNone_iff_eq_none]
      refine ⟨Option.not_isSome_iff_eq_none.mp h1, ?_⟩
      cases hno : needsOcr ci i
      · exact absurd hno h2
      · rfl

theorem classifyTasks_keys (ci : ClassifyInput) :
    (classifyTasks ci).map Prod.fst =
      (List.range ci.total).filter fun i => (ci.initial i).isNone && needsOcr ci i := by
  unfold classifyTasks
  have hcomp : (Prod.fst ∘ fun i : Nat => (i, ci.pageMethod i)) = id := rfl
  rw [List.map_map, hcomp, List.map_id]

theorem classifyTasks_nodup (ci : ClassifyInput) :
    ((classifyTasks ci).map Prod.fst).Nodup := by
  rw [classifyTasks_keys]
  exact (List.nodup_range _).filter _

theorem extractPdf_parts (o : Oracle) (ci : ClassifyInput) (doClean : Bool) :
    extractPdf o ci doClean =
      { retryRound o doClean
          (retryRound o doClean
            (retryRound o doClean
              (runPipeline o doClean 0 (classifyTasks ci) ⟨classifyRes ci, [], []⟩) 1) 2) 3
        with
        res := setdefaultEmpty
          (retryRound o doClean
            (retryRound o doClean
              (retryRound o doClean
                (runPipeline o doClean 0 (classifyTasks ci) ⟨classifyRes ci, [], []⟩) 1) 2) 3).res
          (retryRound o doClean
            (retryRound o doClean
              (retryRound o doClean
                (runPipeline o doClean 0 (classifyTasks ci) ⟨classifyRes ci, [], []⟩) 1) 2) 3).retry } :=
  rfl

/-- C1, counterexample: a completed, uncancelled run on a 1-page document
whose only page is classified `ai` and whose VLM call returns the empty
string.  `_on_ocr_done` drops the empty result without recording it and the
page never enters the retry set, so the returned map has no entry for page
0 — `len(final_result_map) = 0 ≠ 1 = total_pages`. -/
def oEmpty : Oracle := ⟨fun _ _ _ => "", fun _ _ _ => TEXT_ERROR⟩

/-- A 1-page document, default method `ai`, no progress loaded. -/
def ciOne : ClassifyInput := ⟨1, fun _ => "ai", fun _ => "", fun _ => false, 50, fun _ => none⟩

theorem c1_counterexample :
    0 < ciOne.total ∧ (extractPdf oEmpty ciOne false).res 0 = none := by
  exact ⟨by decide, rfl⟩

/-- C1, amended.  In a completed run in which every `process_ocr_page`
invocation returns non-empty text, the final result map has an entry for
every page index in `[0, total)`, and every page still in the retry set
after the final round is recorded as the explicit empty string.  Without
that proviso the claim fails: a page whose OCR/VLM processing returns the
empty string is skipped by `_on_ocr_done` and left absent from the map. -/
theorem c1_result_map_coverage (o : Oracle) (ci : ClassifyInput) (doClean : Bool)
    (hproc : ∀ r i m, o.proc r i m ≠ "") :
    (∀ i, i < ci.total → ((extractPdf o ci doClean).res i).isSome)
    ∧ (∀ i ∈ (extractPdf o ci doClean).retry,
        (extractPdf o ci doClean).res i = some "") := by
  have hJ1 : ∀ j ∈ (runPipeline o doClean 0 (classifyTasks ci)
        ⟨classifyRes ci, [], []⟩).retry,
      (runPipeline o doClean 0 (classifyTasks ci) ⟨classifyRes ci, [], []⟩).res j = none :=
    runPipeline_J o doClean 0 _ _ (classifyTasks_nodup ci)
      (fun x _ hx => List.not_mem_nil x.1 hx)
      (fun j hj => absurd hj (List.not_mem_nil j))
  have hN1 : (runPipeline o doClean 0 (classifyTasks ci)
      ⟨classifyRes ci, [], []⟩).retry.Nodup :=
    runPipeline_retry_nodup o doClean 0 _ _ List.nodup_nil
  have h2 := retryRound_J o doClean _ 1 hJ1 hN1
  have h3 := retryRound_J o doClean _ 2 h2.1 h2.2
  have h4 := retryRound_J o doClean _ 3 h3.1 h3.2
  rw [extractPdf_parts]
  constructor
  · intro i hi
    dsimp only
    have hdone : pageDone (retryRound o doClean (retryRound o doClean (retryRound o doClean
        (runPipeline o doClean 0 (classifyTasks ci) ⟨classifyRes ci, [], []⟩) 1) 2) 3) i := by
      refine retryRound_done o doClean _ 3 i (fun m => hproc 3 i m) ?_
      refine retryRound_done o doClean _ 2 i (fun m => hproc 2 i m) ?_
      refine retryRound_done o doClean _ 1 i (fun m => hproc 1 i m) ?_
      refine runPipeline_done o doClean 0 _ _ i ?_ (fun m => hproc 0 i m)
      rcases classify_done_or_task ci i hi with h | h
      · exact Or.inl (Or.inl h)
      · exact Or.inr ⟨ci.pageMethod i, h⟩
    rcases hdone with h | h
    · exact setdefaultEmpty_isSome_mono _ _ i h
    · exact setdefaultEmpty_isSome_of_mem _ _ i h
  · intro i hi
    dsimp only at hi ⊢
    exact setdefaultEmpty_retry_empty _ _ (fun j hj => Or.inl (h4.1 j hj)) i hi

/-- An oracle whose OCR always reads `"x"` and whose cleaning always judges
the text unfixable. -/
def oGood : Oracle := ⟨fun _ _ _ => "x", fun _ _ _ => TEXT_ERROR⟩

/-- C1, witness for `c1_result_map_coverage`: a 1-page `ai` document with
non-empty OCR whose cleaning always fails ends with page 0 present, as the
explicit empty string. -/
theorem c1_result_map_coverage_witness :
    ((extractPdf oGood ciOne true).res 0).isSome
    ∧ (extractPdf oGood ciOne true).res 0 = some "" := by
  have h := c1_result_map_coverage oGood ciOne true
    (by intro r i m; show ("x" : String) ≠ ""; decide)
  exact ⟨h.1 0 (by decide), h.2 0 (by decide)⟩

/-! ### Per-page processing trace (C4) -/

/-- State after the round-0 pipeline of `extract_pdf_method`. -/
def stage1 (o : Oracle) (ci : ClassifyInput) (doClean : Bool) : PipeState :=
  runPipeline o doClean 0 (classifyTasks ci) ⟨classifyRes ci, [], []⟩

/-- State after retry round 1. -/
def stage2 (o : Oracle) (ci : ClassifyInput) (doClean : Bool) : PipeState :=
  retryRound o doClean (stage1 o ci doClean) 1

/-- State after retry round 2. -/
def stage3 (o : Oracle) (ci : ClassifyInput) (doClean : Bool) : PipeState :=
  retryRound o doClean (stage2 o ci doClean) 2

/-- State after retry round 3, the final round. -/
def stage4 (o : Oracle) (ci : ClassifyInput) (doClean : Bool) : PipeState :=
  retryRound o doClean (stage3 o ci doClean) 3

theorem extractPdf_stages (o : Oracle) (ci : ClassifyInput) (doClean : Bool) :
    extractPdf o ci doClean =
      { stage4 o ci doClean with
        res := setdefaultEmpty (stage4 o ci doClean).res (stage4 o ci doClean).retry } :=
  rfl

theorem filter_keylog_of_not_mem (r p : Nat) :
    ∀ tasks : List (Nat × String), (∀ x ∈ tasks, x.1 ≠ p) →
      ((tasks.map fun t => (r, t.1, t.2)).filter fun e => decide (e.2.1 = p)) = [] := by
  intro tasks
  induction tasks with
  | nil => intro _; rfl
  | cons t ts ih =>
    intro h
    rw [List.map_cons, List.filter_cons,
      if_neg (by simp [h t (List.mem_cons_self t ts)])]
    exact ih fun x hx => h x (List.mem_cons_of_mem t hx)

theorem filter_keylog_of_mem (r p : Nat) (mp : String) :
    ∀ tasks : List (Nat × String), (tasks.map Prod.fst).Nodup → (p, mp) ∈ tasks →
      ((tasks.map fun t => (r, t.1, t.2)).filter fun e => decide (e.2.1 = p)) =
        [(r, p, mp)] := by
  intro tasks
  induction tasks with
  | nil => intro _ h; exact absurd h (List.not_mem_nil _)
  | cons t ts ih =>
    intro hnd hp
    rw [List.map_cons, List.nodup_cons] at hnd
    rw [List.map_cons, List.filter_cons]
    rcases List.mem_cons.mp hp with h | h
    · have ht : t = (p, mp) := h.symm
      subst ht
      rw [if_pos (by simp)]
      rw [filter_keylog_of_not_mem r p ts ?_]
      intro x hx he
      apply hnd.1
      have hxm : x.1 ∈ ts.map Prod.fst := List.mem_map_of_mem Prod.fst hx
      rwa [he] at hxm
    · have hne : t.1 ≠ p := by
        intro he
        apply hnd.1
        have hxm : p ∈ ts.map Prod.fst := by
          have : (p, mp).1 ∈ ts.map Prod.fst := List.mem_map_of_mem Prod.fst h
          exact this
        rwa [he]
      rw [if_neg (by simp [hne])]
      exact ih hnd.2 h

theorem retryTasks_key_mem (retry : List Nat) (p : Nat) (hp : p ∈ retry) :
    (p, "ai") ∈ (retry.insertionSort (· ≤ ·)).map fun i => (i, "ai") :=
  List.mem_map.mpr ⟨p, (List.perm_insertionSort (· ≤ ·) retry).mem_iff.mpr hp, rfl⟩

theorem retryTasks_keys_nodup (retry : List Nat) (hnd : retry.Nodup) :
    (((retry.insertionSort (· ≤ ·)).map fun i => (i, "ai")).map Prod.fst).Nodup := by
  rw [sort_map_keys]
  exact ((List.perm_insertionSort (· ≤ ·) retry).nodup_iff).mpr hnd

/-- C4, counterexample: a page whose cleaning always returns `TEXT_ERROR`;
its round-0 OCR succeeds but its round-1 re-OCR returns the empty string.
The page is then dropped (empty results are never recorded and never
re-queued), so after the run it is absent from the result map instead of
being recorded as the empty string. -/
def oHalf : Oracle :=
  ⟨fun r _ _ => if r = 0 then "x" else "", fun _ _ _ => TEXT_ERROR⟩

theorem c4_counterexample :
    (extractPdf oHalf ciOne true).res 0 = none
    ∧ ((extractPdf oHalf ciOne true).log.filter fun e => decide (e.2.1 = 0)) =
        [(0, 0, "ai"), (1, 0, "ai")] := by
  exact ⟨rfl, rfl⟩

/-- C4, amended.  A page whose cleaning pass always returns the unfixable
sentinel, and whose OCR/VLM processing always returns non-empty text, is
processed exactly once in round 0 with its classified method and retried in
exactly 3 retry rounds, each forcing method `ai`; it is never retried a 4th
time, and after the final round it is recorded in the result map as the
explicit empty string.  (When a retry-round processing returns empty text
the page is instead dropped from the map, as `c4_counterexample` shows.) -/
theorem c4_retry_bound (o : Oracle) (ci : ClassifyInput) (p : Nat)
    (hp : p < ci.total) (hinit : ci.initial p = none) (hocr : needsOcr ci p = true)
    (hclean : ∀ r t, o.clean r p t = TEXT_ERROR)
    (hproc : ∀ r m, o.proc r p m ≠ "") :
    (extractPdf o ci true).res p = some ""
    ∧ ((extractPdf o ci true).log.filter fun e => decide (e.2.1 = p)) =
        [(0, p, ci.pageMethod p), (1, p, "ai"), (2, p, "ai"), (3, p, "ai")] := by
  have htask : (p, ci.pageMethod p) ∈ classifyTasks ci := by
    refine List.mem_map.mpr ⟨p, List.mem_filter.mpr ⟨List.mem_range.mpr hp, ?_⟩, rfl⟩
    rw [Bool.and_eq_true, Option.isNone_iff_eq_none]
    exact ⟨hinit, hocr⟩
  have hp1 : p ∈ (stage1 o ci true).retry :=
    runPipeline_process o 0 _ _ p ⟨_, htask⟩ (hclean 0) (hproc 0)
  have hJ1 : ∀ j ∈ (stage1 o ci true).retry, (stage1 o ci true).res j = none :=
    runPipeline_J o true 0 _ _ (classifyTasks_nodup ci)
      (fun x _ hx => List.not_mem_nil x.1 hx)
      (fun j hj => absurd hj (List.not_mem_nil j))
  have hN1 : (stage1 o ci true).retry.Nodup :=
    runPipeline_retry_nodup o true 0 _ _ List.nodup_nil
  have hp2 : p ∈ (stage2 o ci true).retry :=
    retryRound_process o _ 1 p hp1 (hclean 1) (hproc 1)
  have h2 : (∀ j ∈ (stage2 o ci true).retry, (stage2 o ci true).res j = none) ∧
      (stage2 o ci true).retry.Nodup :=
    retryRound_J o true (stage1 o ci true) 1 hJ1 hN1
  have hp3 : p ∈ (stage3 o ci true).retry :=
    retryRound_process o _ 2 p hp2 (hclean 2) (hproc 2)
  have h3 : (∀ j ∈ (stage3 o ci true).retry, (stage3 o ci true).res j = none) ∧
      (stage3 o ci true).retry.Nodup :=
    retryRound_J o true (stage2 o ci true) 2 h2.1 h2.2
  have hp4 : p ∈ (stage4 o ci true).retry :=
    retryRound_process o _ 3 p hp3 (hclean 3) (hproc 3)
  have h4 : (∀ j ∈ (stage4 o ci true).retry, (stage4 o ci true).res j = none) ∧
      (stage4 o ci true).retry.Nodup :=
    retryRound_J o true (stage3 o ci true) 3 h3.1 h3.2
  constructor
  · rw [extractPdf_stages]
    dsimp only
    exact setdefaultEmpty_retry_empty _ _ (fun j hj => Or.inl (h4.1 j hj)) p hp4
  · rw [extractPdf_stages]
    dsimp only
    have hlog1 : (stage1 o ci true).log =
        [] ++ (classifyTasks ci).map fun t => ((0 : Nat), t.1, t.2) :=
      runPipeline_log o true 0 _ _
    have hlog2 : (stage2 o ci true).log = (stage1 o ci true).log ++
        ((((stage1 o ci true).retry.insertionSort (· ≤ ·)).map fun i => (i, "ai")).map
          fun t => ((1 : Nat), t.1, t.2)) :=
      retryRound_log_of_ne o true _ 1 (List.ne_nil_of_mem hp1)
    have hlog3 : (stage3 o ci true).log = (stage2 o ci true).log ++
        ((((stage2 o ci true).retry.insertionSort (· ≤ ·)).map fun i => (i, "ai")).map
          fun t => ((2 : Nat), t.1, t.2)) :=
      retryRound_log_of_ne o true _ 2 (List.ne_nil_of_mem hp2)
    have hlog4 : (stage4 o ci true).log = (stage3 o ci true).log ++
        ((((stage3 o ci true).retry.insertionSort (· ≤ ·)).map fun i => (i, "ai")).map
          fun t => ((3 : Nat), t.1, t.2)) :=
      retryRound_log_of_ne o true _ 3 (List.ne_nil_of_mem hp3)
    rw [hlog4, hlog3, hlog2, hlog1, List.filter_append, List.filter_append,
      List.filter_append, List.filter_append]
    rw [filter_keylog_of_mem 0 p (ci.pageMethod p) _ (classifyTasks_nodup ci) htask]
    rw [filter_keylog_of_mem 1 p "ai" _ (retryTasks_keys_nodup _ hN1)
      (retryTasks_key_mem _ p hp1)]
    rw [filter_keylog_of_mem 2 p "ai" _ (retryTasks_keys_nodup _ h2.2)
      (retryTasks_key_mem _ p hp2)]
    rw [filter_keylog_of_mem 3 p "ai" _ (retryTasks_keys_nodup _ h3.2)
      (retryTasks_key_mem _ p hp3)]
    rfl

/-- C4, witness: the 1-page always-unfixable document with non-empty OCR is
processed in round 0 and exactly 3 retry rounds, all with method `ai`, and
ends recorded as the empty string. -/
theorem c4_retry_bound_witness :
    (extractPdf oGood ciOne true).res 0 = some ""
    ∧ ((extractPdf oGood ciOne true).log.filter fun e => decide (e.2.1 = 0)) =
        [(0, 0, "ai"), (1, 0, "ai"), (2, 0, "ai"), (3, 0, "ai")] := by
  have h := c4_retry_bound oGood ciOne 0 (by decide) rfl (by decide)
    (fun r t => rfl) (by intro r m; show ("x" : String) ≠ ""; decide)
  exact ⟨h.1, h.2⟩

end ExtractText
